import Mathlib

/-!
Verification of the price-aggregation and vendor-allocation engine of the
`mtg-card-scraper` repository.

The Python sources are shallowly embedded below:

* Python `dict` values (insertion-ordered maps keyed by strings) are embedded
  as association lists `List (String × β)` together with the three access
  patterns the code uses: `dlookup` (read / `in` test), `dinsert`
  (`d[k] = v`, which overwrites in place or appends a fresh key at the end)
  and `dappend` (the `if k not in d: d[k] = []` / `d[k].append(x)` pattern).
* Python floats holding card prices are embedded as `PVal`: either a rational
  number or the `float("inf")` sentinel the code uses for "not found".
* `scraper_manager.ScraperManager._analyze_without_filtering` and
  `_analyze_with_filtering` are embedded as pure functions on these types,
  following the source line by line (dictionary folds in input order).
* `scraper_manager.ScraperManager.parse_moxfield_format` is embedded including
  a functional model of the regular expression
  `^(\d+)\s+(.+?)\s*(?:\(([A-Z0-9]+)\)\s*(\S+)(?:\s+\*F\*)?)?$`.
* `scrapers.cryptmtg_scraper.CryptMTGScraper._parse_price`, `_parse_quantity`
  and the found-card construction of `_extract_prices` are embedded as pure
  string functions.
-/

set_option maxHeartbeats 2000000
set_option linter.unnecessarySeqFocus false

namespace MtgScraper

/-! ### Association lists embedding Python dicts -/

/-- Read access `d[k]` / membership test `k in d` for a Python dict. -/
def dlookup {β : Type} (k : String) : List (String × β) → Option β
  | [] => none
  | (k', v) :: d => if k' = k then some v else dlookup k d

/-- Assignment `d[k] = v`: overwrite the value in place if the key exists,
otherwise append the new key at the end (Python dicts preserve insertion
order and keep the position of an overwritten key). -/
def dinsert {β : Type} (k : String) (v : β) : List (String × β) → List (String × β)
  | [] => [(k, v)]
  | (k', v') :: d => if k' = k then (k', v) :: d else (k', v') :: dinsert k v d

/-- The `if k not in d: d[k] = []` followed by `d[k].append(x)` pattern. -/
def dappend {β : Type} (k : String) (x : β) : List (String × List β) → List (String × List β)
  | [] => [(k, [x])]
  | (k', l) :: d => if k' = k then (k', l ++ [x]) :: d else (k', l) :: dappend k x d

/-- The keys of a dict, in insertion order. -/
def dkeys {β : Type} (d : List (String × β)) : List String := d.map Prod.fst

/-! ### Computable rational arithmetic

`Rat.add`, `Rat.sub` and `Rat.mul` are `@[irreducible]`, so concrete runs of
the embedding could not be checked by the kernel through them; these helpers
compute through `mkRat` and are proved equal to the standard operations
below (`qadd_eq`, `qsub_eq`, `qmulNat_eq`, `qfloor_eq`). -/

/-- `a + b` on rationals, kernel-computable. -/
def qadd (a b : ℚ) : ℚ := mkRat (a.num * b.den + b.num * a.den) (a.den * b.den)

/-- `a - b` on rationals, kernel-computable. -/
def qsub (a b : ℚ) : ℚ := mkRat (a.num * b.den - b.num * a.den) (a.den * b.den)

/-- `a * n` for a natural `n`, kernel-computable. -/
def qmulNat (a : ℚ) (n : Nat) : ℚ := mkRat (a.num * n) a.den

/-- `⌊q⌋`, kernel-computable. -/
def qfloor (q : ℚ) : Int := q.num / q.den

/-! ### Prices: Python floats with the infinity sentinel -/

/-- A Python float as used for prices: a finite rational value or
`float("inf")` (the not-found sentinel, which can also be produced by
`CryptMTGScraper._parse_price` on unparseable text). -/
inductive PVal : Type where
  | fin (q : ℚ)
  | inf
deriving DecidableEq, Repr

namespace PVal

/-- Python `<` on prices (no NaN can arise in this code). -/
def blt : PVal → PVal → Bool
  | fin a, fin b => decide (a < b)
  | fin _, inf => true
  | inf, _ => false

/-- Python `<=` on prices. -/
def ble : PVal → PVal → Bool
  | fin a, fin b => decide (a ≤ b)
  | fin _, inf => true
  | inf, fin _ => false
  | inf, inf => true

/-- Python `+` on prices (only nonzero finite values and `+inf` occur,
so `inf` absorbs). -/
def add : PVal → PVal → PVal
  | fin a, fin b => fin (qadd a b)
  | _, _ => inf

/-- Python `price * quantity` for a natural quantity. -/
def mulNat : PVal → Nat → PVal
  | fin a, n => fin (qmulNat a n)
  | inf, _ => inf

/-- Python `second_best_price - best_price >= threshold` including the
infinite cases: `inf - finite = inf >= thr` is true, `finite - inf = -inf`
and `inf - inf = nan` both compare false. -/
def subGe (second best : PVal) (thr : ℚ) : Bool :=
  match second, best with
  | fin s, fin b => decide (thr ≤ qsub s b)
  | inf, fin _ => true
  | _, inf => false

end PVal

/-! ### Data model (`base_scraper.py`) -/

/-- `base_scraper.Card`. -/
structure Card where
  quantity : Nat
  name : String
  set_code : Option String := none
  collector_number : Option String := none
deriving DecidableEq, Repr

/-- `base_scraper.CardPrice`. -/
structure CardPrice where
  card_name : String
  original_query : String
  price : PVal
  website : String
  found : Bool
  quantity_available : Nat := 0
deriving DecidableEq, Repr

/-- `scraper_config.VendorFilterConfig` (a Python dataclass; no validation is
performed anywhere in the code). -/
structure VendorFilterConfig where
  min_cards_per_vendor : Int := 3
  min_price_difference_override : ℚ := 5
  enable_filtering : Bool := true
deriving DecidableEq, Repr

/-! ### Result structures (the dictionaries built by the analysis methods) -/

/-- One value of the `results["best_prices"]` dict. -/
structure BestPriceEntry where
  quantity_needed : Nat
  best_price : PVal
  website : String
  quantity_available : Nat
deriving DecidableEq, Repr

/-- One element of a `results["buy_lists"][website]` list. -/
structure BuyListEntry where
  card : String
  quantity : Nat
  price_per_unit : PVal
  total_price : PVal
deriving DecidableEq, Repr

/-- One value of the `results["summary"]` dict. -/
structure SummaryEntry where
  total_cards : Nat
  total_price : PVal
deriving DecidableEq, Repr

/-- The `results` dictionary assembled by both analysis methods. -/
structure AnalysisResults where
  best_prices : List (String × BestPriceEntry)
  buy_lists : List (String × List BuyListEntry)
  not_found : List String
  summary : List (String × SummaryEntry)
deriving DecidableEq, Repr

/-- The empty `results` dict both methods start from. -/
def emptyResults : AnalysisResults := ⟨[], [], [], []⟩

/-! ### Shared aggregation helpers -/

/-- The `card_prices` grouping loop shared by both analysis methods:
`for price in all_prices: card_prices[price.original_query].append(price)`. -/
def groupByQuery (all_prices : List CardPrice) : List (String × List CardPrice) :=
  all_prices.foldl (fun d p => dappend p.original_query p d) []

/-- The found observations answering one requested name, in input order
(= `[p for p in card_prices[name] if p.found]`). -/
def foundFor (name : String) (all_prices : List CardPrice) : List CardPrice :=
  (all_prices.filter (fun p => decide (p.original_query = name))).filter (·.found)

/-- Python `min(found_prices, key=lambda x: x.price)`: the first element
attaining the minimal price. -/
def pyMin (x : CardPrice) (l : List CardPrice) : CardPrice :=
  l.foldl (fun acc p => if PVal.blt p.price acc.price then p else acc) x

/-- `pyMin` on a list, with a junk value on the empty list (never used there). -/
def pyMinL (l : List CardPrice) : CardPrice :=
  match l with
  | [] => ⟨"", "", .inf, "", false, 0⟩
  | x :: xs => pyMin x xs

/-- The sort key relation of `found_prices.sort(key=lambda x: x.price)`. -/
def leP (a b : CardPrice) : Prop := PVal.ble a.price b.price = true

instance : DecidableRel leP := fun a b => by unfold leP; infer_instance

/-- `found_prices.sort(key=lambda x: x.price)`: a stable ascending sort. -/
def sortByPrice (l : List CardPrice) : List CardPrice :=
  l.insertionSort leP

/-- Python `round(x, 2)` idealised over the rationals: round half to even at
two decimal places; `round(inf, 2)` is `inf`. -/
def round2 : PVal → PVal
  | .fin q =>
    let x := qmulNat q 100
    let f := qfloor x
    let r := qsub x (mkRat f 1)
    .fin (mkRat (if r < mkRat 1 2 then f
                 else if mkRat 1 2 < r then f + 1
                 else if f % 2 = 0 then f else f + 1) 100)
  | .inf => .inf

/-- The `best_prices` dict literal both analysis methods build:
`{"quantity_needed": ..., "best_price": ..., "website": ..., "quantity_available": ...}`. -/
def mkBP (c : Card) (b : CardPrice) : BestPriceEntry :=
  ⟨c.quantity, b.price, b.website, b.quantity_available⟩

/-- The buy-list line literal both analysis methods build:
`{"card": ..., "quantity": ..., "price_per_unit": ..., "total_price": price * quantity}`. -/
def mkLine (n : String) (q : Nat) (b : CardPrice) : BuyListEntry :=
  ⟨n, q, b.price, b.price.mulNat q⟩

/-- `sum(c["total_price"] for c in cards_list)` (Python `sum` starts from 0). -/
def sumPrices (l : List PVal) : PVal := l.foldl PVal.add (.fin 0)

/-- The summary loop shared by both analysis methods:
`results["summary"][website] = {"total_cards": len(...), "total_price": round(total, 2)}`. -/
def mkSummary (buy_lists : List (String × List BuyListEntry)) :
    List (String × SummaryEntry) :=
  buy_lists.foldl
    (fun s wl =>
      dinsert wl.1 ⟨wl.2.length, round2 (sumPrices (wl.2.map (·.total_price)))⟩ s)
    []

/-! ### `_analyze_without_filtering` (scraper_manager.py, lines 143-195) -/

/-- The body of the `for card in cards` loop of `_analyze_without_filtering`. -/
def stepWithout (card_prices : List (String × List CardPrice))
    (res : AnalysisResults) (card : Card) : AnalysisResults :=
  match dlookup card.name card_prices with
  | some ps =>
    match ps.filter (·.found) with
    | [] => { res with not_found := res.not_found ++ [card.name] }
    | f :: rest =>
      let best_price := pyMin f rest
      { res with
        best_prices := dinsert card.name (mkBP card best_price) res.best_prices,
        buy_lists := dappend best_price.website
          (mkLine card.name card.quantity best_price) res.buy_lists }
  | none => { res with not_found := res.not_found ++ [card.name] }

/-- `ScraperManager._analyze_without_filtering`. -/
def analyze_without_filtering (all_prices : List CardPrice) (cards : List Card) :
    AnalysisResults :=
  let card_prices := groupByQuery all_prices
  let res := cards.foldl (stepWithout card_prices) emptyResults
  { res with summary := mkSummary res.buy_lists }

/-! ### `_analyze_with_filtering` (scraper_manager.py, lines 197-349) -/

/-- One value of the `initial_assignment` / `final_assignment` dicts. -/
structure Assignment where
  card : Card
  price_info : CardPrice
  all_prices : List CardPrice
deriving DecidableEq, Repr

/-- The `card_price_options` dict together with the `not_found` list, built by
the first `for card in cards` loop (lines 222-237): found observations are
sorted ascending by price (Python's sort is stable, so ties keep input
order). -/
def optionsAndNotFound (all_prices : List CardPrice) (cards : List Card) :
    List (String × Card × List CardPrice) × List String :=
  let card_prices := groupByQuery all_prices
  cards.foldl
    (fun st card =>
      match dlookup card.name card_prices with
      | some ps =>
        match ps.filter (·.found) with
        | [] => (st.1, st.2 ++ [card.name])
        | _ :: _ =>
          (dinsert card.name (card, sortByPrice (ps.filter (·.found))) st.1, st.2)
      | none => (st.1, st.2 ++ [card.name]))
    ([], [])

/-- `{"card": ..., "price_info": prices[0], "all_prices": prices}`; options
lists are never empty, the empty case carries a junk observation. -/
def mkAssignment (cps : Card × List CardPrice) : Assignment :=
  match cps.2 with
  | [] => ⟨cps.1, ⟨"", "", .inf, "", false, 0⟩, []⟩
  | p :: _ => ⟨cps.1, p, cps.2⟩

/-- The `initial_assignment` dict (lines 240-247). -/
def initialAssignment (opts : List (String × Card × List CardPrice)) :
    List (String × Assignment) :=
  opts.foldl (fun d ncp => dinsert ncp.1 (mkAssignment ncp.2) d) []

/-- The `vendor_cards` dict (lines 250-255): vendor → names of the cards
tentatively assigned to it. -/
def vendorCards (initial : List (String × Assignment)) : List (String × List String) :=
  initial.foldl (fun d na => dappend na.2.price_info.website na.1 d) []

/-- The `vendors_to_filter` set (lines 258-263): vendors whose tentative item
count is strictly below `min_cards_per_vendor`. Only membership is ever
tested, so a list models the Python set faithfully. -/
def vendorsToFilter (cfg : VendorFilterConfig)
    (vendor_cards : List (String × List String)) : List String :=
  (vendor_cards.filter
      (fun wl => decide ((wl.2.length : Int) < cfg.min_cards_per_vendor))).map (·.1)

/-- The `cards_with_price_override` set (lines 266-285). -/
def cardsWithPriceOverride (cfg : VendorFilterConfig) (vtf : List String)
    (initial : List (String × Assignment)) : List String :=
  initial.foldl
    (fun s na =>
      if vtf.contains na.2.price_info.website then
        match na.2.all_prices with
        | p0 :: p1 :: _ =>
          if PVal.subGe p1.price p0.price cfg.min_price_difference_override then
            s ++ [na.1]
          else s
        | _ => s
      else s)
    []

/-- The `final_assignment` dict (lines 288-315). -/
def finalAssignment (vtf overrides : List String)
    (initial : List (String × Assignment)) : List (String × Assignment) :=
  initial.foldl
    (fun fa na =>
      if !(vtf.contains na.2.price_info.website) || overrides.contains na.1 then
        dinsert na.1 na.2 fa
      else
        match na.2.all_prices with
        | _ :: p1 :: _ => dinsert na.1 ⟨na.2.card, p1, na.2.all_prices⟩ fa
        | _ => dinsert na.1 na.2 fa)
    []

/-- The result-building loop (lines 318-347). -/
def buildResults (nf : List String) (final : List (String × Assignment)) :
    AnalysisResults :=
  let res := final.foldl
    (fun res na =>
      { res with
        best_prices := dinsert na.1 (mkBP na.2.card na.2.price_info) res.best_prices,
        buy_lists := dappend na.2.price_info.website
          (mkLine na.1 na.2.card.quantity na.2.price_info) res.buy_lists })
    { emptyResults with not_found := nf }
  { res with summary := mkSummary res.buy_lists }

/-- `ScraperManager._analyze_with_filtering`. -/
def analyze_with_filtering (cfg : VendorFilterConfig) (all_prices : List CardPrice)
    (cards : List Card) : AnalysisResults :=
  let onf := optionsAndNotFound all_prices cards
  let initial := initialAssignment onf.1
  let vtf := vendorsToFilter cfg (vendorCards initial)
  let ovr := cardsWithPriceOverride cfg vtf initial
  buildResults onf.2 (finalAssignment vtf ovr initial)

/-! ### Abbreviations for the internal stages (used in claim statements) -/

/-- The sorted option list recorded for a requested name, if any. -/
def optionsFor (all_prices : List CardPrice) (cards : List Card) (name : String) :
    Option (Card × List CardPrice) :=
  dlookup name (optionsAndNotFound all_prices cards).1

/-- The initial (naive) assignment dict of a filtered-mode run. -/
def initialAssignmentOf (all_prices : List CardPrice) (cards : List Card) :
    List (String × Assignment) :=
  initialAssignment (optionsAndNotFound all_prices cards).1

/-- The vendor → tentative card names dict of a filtered-mode run. -/
def vendorCardsOf (all_prices : List CardPrice) (cards : List Card) :
    List (String × List String) :=
  vendorCards (initialAssignmentOf all_prices cards)

/-- The vendors marked for filtering in a filtered-mode run. -/
def vendorsToFilterOf (cfg : VendorFilterConfig) (all_prices : List CardPrice)
    (cards : List Card) : List String :=
  vendorsToFilter cfg (vendorCardsOf all_prices cards)

/-- The override-kept card names of a filtered-mode run. -/
def cardsWithPriceOverrideOf (cfg : VendorFilterConfig) (all_prices : List CardPrice)
    (cards : List Card) : List String :=
  cardsWithPriceOverride cfg (vendorsToFilterOf cfg all_prices cards)
    (initialAssignmentOf all_prices cards)

/-- The final assignment dict of a filtered-mode run. -/
def finalAssignmentOf (cfg : VendorFilterConfig) (all_prices : List CardPrice)
    (cards : List Card) : List (String × Assignment) :=
  finalAssignment (vendorsToFilterOf cfg all_prices cards)
    (cardsWithPriceOverrideOf cfg all_prices cards)
    (initialAssignmentOf all_prices cards)

/-! ### `parse_moxfield_format` (scraper_manager.py, lines 22-48) -/

/-- ASCII whitespace, as matched by Python's `\s` and stripped by
`str.strip()`. -/
def isWS (c : Char) : Bool :=
  c = ' ' || c = '\t' || c = '\n' || c = '\r' || c = '\x0b' || c = '\x0c'

/-- `str.strip()` on a character list. -/
def pstrip (l : List Char) : List Char :=
  ((l.dropWhile isWS).reverse.dropWhile isWS).reverse

/-- `str.split("\n")` (empty parts are kept). -/
def splitNL : List Char → List (List Char)
  | [] => [[]]
  | c :: rest =>
    if c = '\n' then [] :: splitNL rest
    else
      match splitNL rest with
      | [] => [[c]]
      | h :: t => (c :: h) :: t

/-- `int()` on a run of decimal digits. -/
def digitsToNat (l : List Char) : Nat :=
  l.foldl (fun n c => 10 * n + (c.toNat - '0'.toNat)) 0

/-- `[A-Z0-9]`. -/
def isSetChar (c : Char) : Bool :=
  ('A' ≤ c && c ≤ 'Z') || ('0' ≤ c && c ≤ '9')

/-- The part of the line pattern after the lazy name group:
`\s*(?:\(([A-Z0-9]+)\)\s*(\S+)(?:\s+\*F\*)?)?$`. Returns `none` on no match,
`some none` on a match without the optional set group, and
`some (some (set, collector))` when the optional group participates. The
greedy pieces (`\s*`, `[A-Z0-9]+`, `\S+`) never need to backtrack because
what follows each of them cannot match what they give back. -/
def matchTail (s : List Char) : Option (Option (List Char × List Char)) :=
  match s.dropWhile isWS with
  | [] => some none
  | '(' :: rest =>
    let setc := rest.takeWhile isSetChar
    if setc.isEmpty then none
    else
      match rest.drop setc.length with
      | ')' :: rest2 =>
        let rest3 := rest2.dropWhile isWS
        let col := rest3.takeWhile (fun c => !(isWS c))
        if col.isEmpty then none
        else
          let rest4 := rest3.drop col.length
          if rest4.isEmpty then some (some (setc, col))
          else
            let ws := rest4.takeWhile isWS
            if ws.isEmpty then none
            else if rest4.drop ws.length = ['*', 'F', '*'] then some (some (setc, col))
            else none
      | _ => none
  | _ => none

/-- The lazy `(.+?)` group: the shortest non-empty prefix whose complement
matches the tail pattern (the first success is the match the regex engine
commits to). Taking the whole remainder always succeeds, so on a non-empty
list the search never fails. -/
def splitNameTail (acc : List Char) :
    List Char → Option (List Char × Option (List Char × List Char))
  | [] => none
  | c :: rest =>
    match matchTail rest with
    | some g => some (acc ++ [c], g)
    | none => splitNameTail (acc ++ [c]) rest

/-- The regex `^(\d+)\s+(.+?)\s*(?:\(([A-Z0-9]+)\)\s*(\S+)(?:\s+\*F\*)?)?$`
applied to a stripped line: the greedy `\d+` and `\s+` never backtrack
(whatever follows them, the lazy group can absorb the whole remainder), then
the lazy name group takes the shortest viable prefix. Returns
`(quantity digits value, raw name group, set code group, collector group)`. -/
def matchLine (l : List Char) :
    Option (Nat × List Char × Option (List Char) × Option (List Char)) :=
  let digits := l.takeWhile Char.isDigit
  if digits.isEmpty then none
  else
    let rest1 := l.drop digits.length
    let ws := rest1.takeWhile isWS
    if ws.isEmpty then none
    else
      match splitNameTail [] (rest1.drop ws.length) with
      | none => none
      | some (g2, none) => some (digitsToNat digits, g2, none, none)
      | some (g2, some sc) => some (digitsToNat digits, g2, some sc.1, some sc.2)

/-- `ScraperManager.parse_moxfield_format`: strip the whole text, split on
newlines, skip blank lines, and keep every line the pattern matches as a
`Card` (quantity, stripped name, optional set code / collector number). -/
def parse_moxfield_format (card_list : String) : List Card :=
  let lines := splitNL (pstrip card_list.toList)
  lines.foldl
    (fun cards line =>
      if (pstrip line).isEmpty then cards
      else
        match matchLine (pstrip line) with
        | some (q, nameRaw, sc, cn) =>
          cards ++ [⟨q, ⟨pstrip nameRaw⟩, sc.map (⟨·⟩), cn.map (⟨·⟩)⟩]
        | none => cards)
    []

/-! ### `CryptMTGScraper` price extraction (scrapers/cryptmtg_scraper.py) -/

/-- Python `float(s)` on the strings that can reach it inside `_parse_price`
(characters `0-9` and `.` only once commas are removed): defined iff there is
at least one digit and at most one dot. -/
def pyFloatOfDigitsDots (l : List Char) : Option ℚ :=
  if l.any Char.isDigit && decide ((l.filter (· = '.')).length ≤ 1)
      && l.all (fun c => Char.isDigit c || c = '.') then
    let intPart := l.takeWhile Char.isDigit
    let fracPart :=
      match l.drop intPart.length with
      | '.' :: f => f
      | _ => []
    some (mkRat (digitsToNat intPart * 10 ^ fracPart.length + digitsToNat fracPart)
      (10 ^ fracPart.length))
  else none

/-- `CryptMTGScraper._parse_price` (lines 178-186): drop every character that
is not a digit, dot or comma, then drop the commas, then try `float()`; any
failure yields `float("inf")`. -/
def cryptmtg_parse_price (price_text : String) : PVal :=
  let t := price_text.toList.filter (fun c => Char.isDigit c || c = '.' || c = ',')
  let t2 := t.filter (fun c => !(c = ','))
  match pyFloatOfDigitsDots t2 with
  | some q => .fin q
  | none => .inf

/-- `re.search(r"/\s*(\d+)", t)` of `_parse_quantity`: the first `/` that is
followed (after whitespace) by at least one digit. -/
def quantitySearch : List Char → Option Nat
  | [] => none
  | c :: rest =>
    if c = '/' then
      match (rest.dropWhile isWS).takeWhile Char.isDigit with
      | [] => quantitySearch rest
      | d => some (digitsToNat d)
    else quantitySearch rest

/-- `CryptMTGScraper._parse_quantity` (lines 188-193). -/
def cryptmtg_parse_quantity (quantity_text : String) : Nat :=
  (quantitySearch quantity_text.toList).getD 0

/-- The `CardPrice` stored into `found_cards` by
`CryptMTGScraper._extract_prices` (lines 124-131): `found` is
unconditionally `True`, whatever `_parse_price` produced. -/
def cryptmtg_found_card (card_name price_text quantity_title : String) : CardPrice :=
  { card_name := card_name
    original_query := card_name
    price := cryptmtg_parse_price price_text
    website := "CryptMTG"
    found := true
    quantity_available := cryptmtg_parse_quantity quantity_title }

/-! ### Lemmas about the dict operations -/

theorem dlookup_dinsert {β : Type} (k w : String) (v : β) (d : List (String × β)) :
    dlookup w (dinsert k v d) = if k = w then some v else dlookup w d := by
  induction d with
  | nil => simp [dinsert, dlookup]
  | cons kv d ih =>
    obtain ⟨k', v'⟩ := kv
    by_cases hk : k' = k
    · subst hk
      by_cases hw : k' = w <;> simp [dinsert, dlookup, hw]
    · by_cases hw : k' = w
      · subst hw
        have : ¬ k = k' := fun h => hk h.symm
        simp [dinsert, dlookup, hk, this]
      · simp [dinsert, dlookup, hk, hw, ih]

theorem dlookup_dappend {β : Type} (k w : String) (x : β) (d : List (String × List β)) :
    dlookup w (dappend k x d) =
      if k = w then some ((dlookup w d).getD [] ++ [x]) else dlookup w d := by
  induction d with
  | nil => simp [dappend, dlookup]
  | cons kv d ih =>
    obtain ⟨k', l⟩ := kv
    by_cases hk : k' = k
    · subst hk
      by_cases hw : k' = w <;> simp [dappend, dlookup, hw]
    · by_cases hw : k' = w
      · subst hw
        have : ¬ k = k' := fun h => hk h.symm
        simp [dappend, dlookup, hk, this]
      · simp [dappend, dlookup, hk, hw, ih]

theorem dkeys_cons {β : Type} (kv : String × β) (d : List (String × β)) :
    dkeys (kv :: d) = kv.1 :: dkeys d := rfl

theorem dkeys_append {β : Type} (d d' : List (String × β)) :
    dkeys (d ++ d') = dkeys d ++ dkeys d' := by simp [dkeys]

theorem dkeys_dinsert {β : Type} (k : String) (v : β) (d : List (String × β)) :
    dkeys (dinsert k v d) = if k ∈ dkeys d then dkeys d else dkeys d ++ [k] := by
  induction d with
  | nil => simp [dinsert, dkeys]
  | cons kv d ih =>
    obtain ⟨k', v'⟩ := kv
    by_cases hk : k' = k
    · subst hk
      simp [dinsert, dkeys_cons]
    · have hne : k ≠ k' := fun h => hk h.symm
      simp only [dinsert, if_neg hk, dkeys_cons, ih, List.mem_cons]
      by_cases hm : k ∈ dkeys d <;> simp [hm, hne]

theorem dkeys_dappend {β : Type} (k : String) (x : β) (d : List (String × List β)) :
    dkeys (dappend k x d) = if k ∈ dkeys d then dkeys d else dkeys d ++ [k] := by
  induction d with
  | nil => simp [dappend, dkeys]
  | cons kv d ih =>
    obtain ⟨k', l⟩ := kv
    by_cases hk : k' = k
    · subst hk
      simp [dappend, dkeys_cons]
    · have hne : k ≠ k' := fun h => hk h.symm
      simp only [dappend, if_neg hk, dkeys_cons, ih, List.mem_cons]
      by_cases hm : k ∈ dkeys d <;> simp [hm, hne]

theorem nodup_dkeys_dinsert {β : Type} (k : String) (v : β) {d : List (String × β)}
    (h : (dkeys d).Nodup) : (dkeys (dinsert k v d)).Nodup := by
  rw [dkeys_dinsert]
  by_cases hm : k ∈ dkeys d
  · simpa [hm]
  · simpa [hm, List.nodup_append] using h

theorem nodup_dkeys_dappend {β : Type} (k : String) (x : β) {d : List (String × List β)}
    (h : (dkeys d).Nodup) : (dkeys (dappend k x d)).Nodup := by
  rw [dkeys_dappend]
  by_cases hm : k ∈ dkeys d
  · simpa [hm]
  · simpa [hm, List.nodup_append] using h

theorem dlookup_eq_none_iff {β : Type} (w : String) (d : List (String × β)) :
    dlookup w d = none ↔ w ∉ dkeys d := by
  induction d with
  | nil => simp [dlookup, dkeys]
  | cons kv d ih =>
    obtain ⟨k', v'⟩ := kv
    by_cases hw : k' = w
    · subst hw
      simp [dlookup, dkeys_cons]
    · simp only [dlookup, if_neg hw, dkeys_cons, List.mem_cons, ih]
      constructor
      · rintro h (h1 | h1)
        · exact hw h1.symm
        · exact h h1
      · intro h h1
        exact h (Or.inr h1)

theorem mem_of_dlookup {β : Type} {w : String} {v : β} {d : List (String × β)}
    (h : dlookup w d = some v) : (w, v) ∈ d := by
  induction d with
  | nil => simp [dlookup] at h
  | cons kv d ih =>
    obtain ⟨k', v'⟩ := kv
    by_cases hw : k' = w
    · subst hw
      simp [dlookup] at h
      simp [h]
    · simp [dlookup, hw] at h
      simp [ih h]

theorem dlookup_of_mem_nodup {β : Type} {w : String} {v : β} {d : List (String × β)}
    (hn : (dkeys d).Nodup) (h : (w, v) ∈ d) : dlookup w d = some v := by
  induction d with
  | nil => simp at h
  | cons kv d ih =>
    obtain ⟨k', v'⟩ := kv
    have hn' := List.nodup_cons.1 (by simpa [dkeys_cons] using hn)
    rcases List.mem_cons.1 h with h1 | h1
    · rw [← h1]
      simp [dlookup]
    · have hw : ¬ k' = w := by
        rintro rfl
        exact hn'.1 (by simpa [dkeys] using List.mem_map_of_mem Prod.fst h1)
      simp [dlookup, hw, ih hn'.2 h1]

theorem dinsert_of_not_mem {β : Type} {k : String} (v : β) {d : List (String × β)}
    (h : k ∉ dkeys d) : dinsert k v d = d ++ [(k, v)] := by
  induction d with
  | nil => simp [dinsert]
  | cons kv d ih =>
    obtain ⟨k', v'⟩ := kv
    simp [dkeys] at h
    have hk : ¬ k' = k := fun hh => h.1 hh.symm
    simp [dinsert, hk, ih (by simpa [dkeys] using h.2)]

theorem dlookup_map {β γ : Type} (w : String) (f : String → β → γ) (d : List (String × β)) :
    dlookup w (d.map (fun kv => (kv.1, f kv.1 kv.2))) = (dlookup w d).map (f w) := by
  induction d with
  | nil => simp [dlookup]
  | cons kv d ih =>
    obtain ⟨k', v'⟩ := kv
    by_cases hw : k' = w
    · subst hw
      simp [dlookup]
    · simp [dlookup, hw, ih]

theorem dkeys_map {β γ : Type} (f : String → β → γ) (d : List (String × β)) :
    dkeys (d.map (fun kv => (kv.1, f kv.1 kv.2))) = dkeys d := by
  induction d with
  | nil => rfl
  | cons kv d ih =>
    simp only [List.map_cons, dkeys_cons, ih]

theorem dkeys_mapG {β γ : Type} (g : String × β → γ) (d : List (String × β)) :
    dkeys (d.map (fun kv => (kv.1, g kv))) = dkeys d := by
  induction d with
  | nil => rfl
  | cons kv d ih => simp only [List.map_cons, dkeys_cons, ih]

/-- A fold of `d[k] = f k v` writes over pairwise distinct fresh keys is just
a `map`. -/
theorem foldl_dinsert_eq_append {β γ : Type} (f : String → β → γ) :
    ∀ (xs : List (String × β)) (acc : List (String × γ)),
      (∀ k ∈ dkeys xs, k ∉ dkeys acc) → (dkeys xs).Nodup →
      xs.foldl (fun d kv => dinsert kv.1 (f kv.1 kv.2) d) acc =
        acc ++ xs.map (fun kv => (kv.1, f kv.1 kv.2))
  | [], acc, _, _ => by simp
  | (k, v) :: xs, acc, hdisj, hnd => by
    simp only [List.foldl_cons]
    have hk_not : k ∉ dkeys acc := hdisj k (by simp [dkeys_cons])
    have hnd0 := List.nodup_cons.1 (by simpa [dkeys_cons] using hnd)
    have hdisj' : ∀ k' ∈ dkeys xs, k' ∉ dkeys (acc ++ [(k, f k v)]) := by
      intro k' hk'
      have h1 : k' ∉ dkeys acc := hdisj k' (by
        simp only [dkeys_cons, List.mem_cons]
        exact Or.inr hk')
      have h2 : k' ≠ k := fun h => hnd0.1 (h ▸ hk')
      rw [dkeys_append]
      simp only [List.mem_append]
      rintro (h | h)
      · exact h1 h
      · exact h2 (by simpa [dkeys] using h)
    rw [dinsert_of_not_mem (f k v) hk_not]
    rw [foldl_dinsert_eq_append f xs (acc ++ [(k, f k v)]) hdisj' hnd0.2]
    simp

theorem foldl_dinsert_eq_map {β γ : Type} (f : String → β → γ) (xs : List (String × β))
    (hnd : (dkeys xs).Nodup) :
    xs.foldl (fun d kv => dinsert kv.1 (f kv.1 kv.2) d) [] =
      xs.map (fun kv => (kv.1, f kv.1 kv.2)) := by
  simpa using foldl_dinsert_eq_append f xs [] (by simp [dkeys]) hnd

/-- Folding repeated overwrites: the last value written wins. -/
theorem foldl_const_some {β : Type} :
    ∀ (l : List (String × β)) (o : Option β),
      l.foldl (fun _ kv => some kv.2) o =
        (match l.getLast? with
         | some kv => some kv.2
         | none => o)
  | [], _ => rfl
  | [_], _ => rfl
  | kv :: kv' :: l, o => by
    have h := foldl_const_some (kv' :: l) (some kv.2)
    simpa [List.getLast?_cons_cons] using h

/-- Looking up after a fold of dict assignments: the last write to the key
wins, otherwise the initial dict answers. -/
theorem dlookup_foldl_dinsert {β : Type} :
    ∀ (xs : List (String × β)) (d : List (String × β)) (w : String),
      dlookup w (xs.foldl (fun d kv => dinsert kv.1 kv.2 d) d) =
        (xs.filter (fun kv => kv.1 = w)).foldl (fun _ kv => some kv.2) (dlookup w d)
  | [], d, w => by simp
  | (k, v) :: xs, d, w => by
    simp only [List.foldl_cons]
    rw [dlookup_foldl_dinsert xs]
    by_cases hk : k = w
    · subst hk
      simp [dlookup_dinsert, List.filter_cons]
    · simp [dlookup_dinsert, hk, List.filter_cons]

/-- Looking up after a fold of grouped appends: the group holds the initial
content followed by every appended value whose key matches, in order. -/
theorem getD_foldl_dappend {β : Type} :
    ∀ (xs : List (String × β)) (d : List (String × List β)) (w : String),
      (dlookup w (xs.foldl (fun d kv => dappend kv.1 kv.2 d) d)).getD [] =
        (dlookup w d).getD [] ++ (xs.filter (fun kv => kv.1 = w)).map Prod.snd
  | [], d, w => by simp
  | (k, v) :: xs, d, w => by
    simp only [List.foldl_cons]
    rw [getD_foldl_dappend xs]
    by_cases hk : k = w
    · subst hk
      simp [dlookup_dappend, List.filter_cons]
    · simp [dlookup_dappend, hk, List.filter_cons]

theorem dlookup_foldl_dappend_eq_none_iff {β : Type} :
    ∀ (xs : List (String × β)) (d : List (String × List β)) (w : String),
      dlookup w (xs.foldl (fun d kv => dappend kv.1 kv.2 d) d) = none ↔
        (dlookup w d = none ∧ (xs.filter (fun kv => kv.1 = w)) = [])
  | [], d, w => by simp
  | (k, v) :: xs, d, w => by
    simp only [List.foldl_cons]
    rw [dlookup_foldl_dappend_eq_none_iff xs]
    by_cases hk : k = w
    · subst hk
      simp [dlookup_dappend, List.filter_cons]
    · simp [dlookup_dappend, hk, List.filter_cons]

theorem nodup_dkeys_foldl_dappend {β : Type} :
    ∀ (xs : List (String × β)) (d : List (String × List β)),
      (dkeys d).Nodup →
      (dkeys (xs.foldl (fun d kv => dappend kv.1 kv.2 d) d)).Nodup
  | [], _, h => h
  | kv :: xs, _, h =>
    nodup_dkeys_foldl_dappend xs _ (nodup_dkeys_dappend kv.1 kv.2 h)

theorem nodup_dkeys_foldl_dinsert {β : Type} :
    ∀ (xs : List (String × β)) (d : List (String × β)),
      (dkeys d).Nodup →
      (dkeys (xs.foldl (fun d kv => dinsert kv.1 kv.2 d) d)).Nodup
  | [], _, h => h
  | kv :: xs, _, h =>
    nodup_dkeys_foldl_dinsert xs _ (nodup_dkeys_dinsert kv.1 kv.2 h)

/-- The number of elements satisfying `p` across all groups of a dict of
lists. -/
def totalCountP {β : Type} (p : β → Bool) (d : List (String × List β)) : Nat :=
  (d.map (fun kv => kv.2.countP p)).sum

theorem totalCountP_dappend {β : Type} (p : β → Bool) (k : String) (x : β)
    (d : List (String × List β)) :
    totalCountP p (dappend k x d) = totalCountP p d + (if p x then 1 else 0) := by
  induction d with
  | nil => simp [dappend, totalCountP, List.countP_cons]
  | cons kv d ih =>
    obtain ⟨k', l⟩ := kv
    by_cases hk : k' = k
    · subst hk
      simp [dappend, totalCountP, List.countP_append, List.countP_cons]
      omega
    · simp [dappend, totalCountP, hk] at ih ⊢
      omega

theorem totalCountP_foldl_dappend {β : Type} (p : β → Bool) :
    ∀ (xs : List (String × β)) (d : List (String × List β)),
      totalCountP p (xs.foldl (fun d kv => dappend kv.1 kv.2 d) d) =
        totalCountP p d + xs.countP (fun kv => p kv.2)
  | [], d => by simp
  | (k, v) :: xs, d => by
    simp only [List.foldl_cons]
    rw [totalCountP_foldl_dappend p xs, totalCountP_dappend, List.countP_cons]
    by_cases hv : p v
    · simp only [hv, if_true, cond_true]
      omega
    · simp only [hv, if_false, cond_false]
      omega

/-- In a dict with distinct keys at most one entry carries a given key. -/
theorem countP_key_le_one {β : Type} {d : List (String × β)} (hn : (dkeys d).Nodup)
    (name : String) : d.countP (fun kv => kv.1 = name) ≤ 1 := by
  have h1 : d.countP (fun kv => kv.1 = name) = (dkeys d).count name := by
    simp [dkeys, List.count, List.countP_map]
    rfl
  rw [h1]
  exact List.nodup_iff_count_le_one.1 hn name

/-! ### Keyed-stream versions of the fold lemmas

The analysis loops fold over lists of cards or assignments, computing the
dict key from each element; these lemmas characterise such folds. -/

section KeyedFolds

variable {α β : Type}

theorem foldl_const_someK (f : α → β) :
    ∀ (l : List α) (o : Option β),
      l.foldl (fun _ x => some (f x)) o =
        (match l.getLast? with
         | some x => some (f x)
         | none => o)
  | [], _ => rfl
  | [_], _ => rfl
  | x :: x' :: l, o => by
    have h := foldl_const_someK f (x' :: l) (some (f x))
    simpa [List.getLast?_cons_cons] using h

theorem dlookup_foldl_dinsertK (key : α → String) (val : α → β) :
    ∀ (xs : List α) (d : List (String × β)) (w : String),
      dlookup w (xs.foldl (fun d x => dinsert (key x) (val x) d) d) =
        (xs.filter (fun x => decide (key x = w))).foldl
          (fun _ x => some (val x)) (dlookup w d)
  | [], _, _ => by simp
  | x :: xs, d, w => by
    simp only [List.foldl_cons]
    rw [dlookup_foldl_dinsertK key val xs]
    by_cases hk : key x = w
    · simp [dlookup_dinsert, hk, List.filter_cons]
    · simp [dlookup_dinsert, hk, List.filter_cons]

theorem getD_foldl_dappendK (key : α → String) (val : α → β) :
    ∀ (xs : List α) (d : List (String × List β)) (w : String),
      (dlookup w (xs.foldl (fun d x => dappend (key x) (val x) d) d)).getD [] =
        (dlookup w d).getD [] ++ (xs.filter (fun x => decide (key x = w))).map val
  | [], _, _ => by simp
  | x :: xs, d, w => by
    simp only [List.foldl_cons]
    rw [getD_foldl_dappendK key val xs]
    by_cases hk : key x = w
    · simp [dlookup_dappend, hk, List.filter_cons]
    · simp [dlookup_dappend, hk, List.filter_cons]

theorem dlookup_foldl_dappendK_eq_none_iff (key : α → String) (val : α → β) :
    ∀ (xs : List α) (d : List (String × List β)) (w : String),
      dlookup w (xs.foldl (fun d x => dappend (key x) (val x) d) d) = none ↔
        (dlookup w d = none ∧ (xs.filter (fun x => decide (key x = w))) = [])
  | [], _, _ => by simp
  | x :: xs, d, w => by
    simp only [List.foldl_cons]
    rw [dlookup_foldl_dappendK_eq_none_iff key val xs]
    by_cases hk : key x = w
    · simp [dlookup_dappend, hk, List.filter_cons]
    · simp [dlookup_dappend, hk, List.filter_cons]

theorem nodup_dkeys_foldl_dappendK (key : α → String) (val : α → β) :
    ∀ (xs : List α) (d : List (String × List β)),
      (dkeys d).Nodup →
      (dkeys (xs.foldl (fun d x => dappend (key x) (val x) d) d)).Nodup
  | [], _, h => h
  | x :: xs, _, h =>
    nodup_dkeys_foldl_dappendK key val xs _ (nodup_dkeys_dappend (key x) (val x) h)

theorem nodup_dkeys_foldl_dinsertK (key : α → String) (val : α → β) :
    ∀ (xs : List α) (d : List (String × β)),
      (dkeys d).Nodup →
      (dkeys (xs.foldl (fun d x => dinsert (key x) (val x) d) d)).Nodup
  | [], _, h => h
  | x :: xs, _, h =>
    nodup_dkeys_foldl_dinsertK key val xs _ (nodup_dkeys_dinsert (key x) (val x) h)

theorem totalCountP_foldl_dappendK (p : β → Bool) (key : α → String) (val : α → β) :
    ∀ (xs : List α) (d : List (String × List β)),
      totalCountP p (xs.foldl (fun d x => dappend (key x) (val x) d) d) =
        totalCountP p d + xs.countP (fun x => p (val x))
  | [], _ => by simp
  | x :: xs, d => by
    simp only [List.foldl_cons]
    rw [totalCountP_foldl_dappendK p key val xs, totalCountP_dappend, List.countP_cons]
    by_cases hv : p (val x)
    · simp only [hv, if_true, cond_true]
      omega
    · simp only [hv, if_false, cond_false]
      omega

end KeyedFolds

/-! ### The computable rational helpers agree with the standard operations -/

theorem qadd_eq (a b : ℚ) : qadd a b = a + b := by
  unfold qadd
  rw [Rat.mkRat_eq_div]
  have ha : (a.den : ℚ) ≠ 0 := Nat.cast_ne_zero.2 a.den_nz
  have hb : (b.den : ℚ) ≠ 0 := Nat.cast_ne_zero.2 b.den_nz
  conv_rhs => rw [← Rat.num_div_den a, ← Rat.num_div_den b]
  push_cast
  field_simp

theorem qsub_eq (a b : ℚ) : qsub a b = a - b := by
  unfold qsub
  rw [Rat.mkRat_eq_div]
  have ha : (a.den : ℚ) ≠ 0 := Nat.cast_ne_zero.2 a.den_nz
  have hb : (b.den : ℚ) ≠ 0 := Nat.cast_ne_zero.2 b.den_nz
  conv_rhs => rw [← Rat.num_div_den a, ← Rat.num_div_den b]
  push_cast
  field_simp
  ring

theorem qmulNat_eq (a : ℚ) (n : Nat) : qmulNat a n = a * n := by
  unfold qmulNat
  rw [Rat.mkRat_eq_div]
  have ha : (a.den : ℚ) ≠ 0 := Nat.cast_ne_zero.2 a.den_nz
  conv_rhs => rw [← Rat.num_div_den a]
  push_cast
  field_simp

theorem qfloor_eq (q : ℚ) : qfloor q = ⌊q⌋ := Rat.floor_def.symm

/-! ### Order lemmas for prices -/

namespace PVal

theorem ble_refl (a : PVal) : ble a a = true := by
  cases a <;> simp [ble]

theorem ble_total (a b : PVal) : ble a b = true ∨ ble b a = true := by
  cases a <;> cases b <;> simp [ble] <;> exact le_total _ _

theorem ble_trans {a b c : PVal} (h1 : ble a b = true) (h2 : ble b c = true) :
    ble a c = true := by
  cases a <;> cases b <;> cases c <;> simp [ble] at h1 h2 ⊢ <;> exact le_trans h1 h2

theorem ble_antisymm {a b : PVal} (h1 : ble a b = true) (h2 : ble b a = true) :
    a = b := by
  cases a <;> cases b <;> simp [ble] at h1 h2 ⊢ <;> exact le_antisymm h1 h2

theorem blt_eq_not_ble (a b : PVal) : blt a b = !(ble b a) := by
  cases a <;> cases b <;> simp [blt, ble, ← not_le]

theorem ble_of_blt {a b : PVal} (h : blt a b = true) : ble a b = true := by
  cases a <;> cases b <;> simp [blt, ble] at h ⊢ <;> exact le_of_lt h

theorem not_blt_iff_ble {a b : PVal} : blt a b = false ↔ ble b a = true := by
  rw [blt_eq_not_ble]
  cases ble b a <;> simp

theorem ble_blt_trans {a b c : PVal} (h1 : ble a b = true) (h2 : blt b c = true) :
    blt a c = true := by
  cases a <;> cases b <;> cases c <;> simp [blt, ble] at h1 h2 ⊢ <;>
    exact lt_of_le_of_lt h1 h2

theorem blt_ble_trans {a b c : PVal} (h1 : blt a b = true) (h2 : ble b c = true) :
    blt a c = true := by
  cases a <;> cases b <;> cases c <;> simp [blt, ble] at h1 h2 ⊢ <;>
    exact lt_of_lt_of_le h1 h2

end PVal

instance : IsTotal CardPrice leP :=
  ⟨fun a b => PVal.ble_total a.price b.price⟩

instance : IsTrans CardPrice leP :=
  ⟨fun _ _ _ h1 h2 => PVal.ble_trans h1 h2⟩

/-! ### Properties of `pyMin` (Python `min` with a key) -/

theorem pyMin_cons (x a : CardPrice) (l : List CardPrice) :
    pyMin x (a :: l) = pyMin (if PVal.blt a.price x.price then a else x) l := rfl

theorem pyMin_mem : ∀ (l : List CardPrice) (x : CardPrice), pyMin x l ∈ x :: l
  | [], x => by simp [pyMin]
  | a :: l, x => by
    rw [pyMin_cons]
    rcases List.mem_cons.1 (pyMin_mem l (if PVal.blt a.price x.price then a else x))
      with h | h
    · rw [h]
      split <;> simp
    · simp [h]

theorem pyMin_le :
    ∀ (l : List CardPrice) (x : CardPrice),
      ∀ p ∈ x :: l, PVal.ble (pyMin x l).price p.price = true
  | [], x => by
    intro p hp
    rw [List.mem_singleton.1 hp]
    simp [pyMin, PVal.ble_refl]
  | a :: l, x => by
    intro p hp
    rw [pyMin_cons]
    by_cases hax : PVal.blt a.price x.price = true
    · rw [if_pos hax]
      rcases List.mem_cons.1 hp with h | hp'
      · rw [h]
        exact PVal.ble_trans (pyMin_le l a a (by simp)) (PVal.ble_of_blt hax)
      · exact pyMin_le l a p hp'
    · rw [if_neg (by simpa using hax)]
      have hxa : PVal.ble x.price a.price = true :=
        PVal.not_blt_iff_ble.1 (by simpa using hax)
      rcases List.mem_cons.1 hp with h | hp'
      · rw [h]
        exact pyMin_le l x x (by simp)
      · rcases List.mem_cons.1 hp' with h | hp''
        · rw [h]
          exact PVal.ble_trans (pyMin_le l x x (by simp)) hxa
        · exact pyMin_le l x p (by simp [hp''])

/-- Python `min` returns the first element attaining the minimum: everything
strictly before the returned element has a strictly larger price. -/
theorem pyMin_first :
    ∀ (l : List CardPrice) (x : CardPrice),
      ∃ l₁ l₂, x :: l = l₁ ++ (pyMin x l) :: l₂ ∧
        ∀ p ∈ l₁, PVal.blt (pyMin x l).price p.price = true
  | [], x => ⟨[], [], by simp [pyMin]⟩
  | a :: l, x => by
    rw [pyMin_cons]
    by_cases hax : PVal.blt a.price x.price = true
    · rw [if_pos hax]
      obtain ⟨m₁, m₂, hdec, hlt⟩ := pyMin_first l a
      refine ⟨x :: m₁, m₂, by rw [List.cons_append, ← hdec], ?_⟩
      intro p hp
      rcases List.mem_cons.1 hp with rfl | hp'
      · exact PVal.ble_blt_trans (pyMin_le l a a (by simp)) hax
      · exact hlt p hp'
    · rw [if_neg (by simpa using hax)]
      have hxa : PVal.ble x.price a.price = true :=
        PVal.not_blt_iff_ble.1 (by simpa using hax)
      obtain ⟨m₁, m₂, hdec, hlt⟩ := pyMin_first l x
      cases m₁ with
      | nil =>
        simp only [List.nil_append] at hdec
        have hx : pyMin x l = x := ((List.cons_eq_cons.1 hdec).1).symm
        refine ⟨[], a :: l, ?_, by simp⟩
        simp [hx]
      | cons c m₁' =>
        rw [List.cons_append] at hdec
        have hcx : c = x := ((List.cons_eq_cons.1 hdec).1).symm
        have hl : l = m₁' ++ (pyMin x l) :: m₂ := (List.cons_eq_cons.1 hdec).2
        have hx_lt : PVal.blt (pyMin x l).price x.price = true := by
          have h := hlt c (by simp)
          rwa [hcx] at h
        refine ⟨x :: a :: m₁', m₂, ?_, ?_⟩
        · rw [List.cons_append, List.cons_append, ← hl]
        · intro p hp
          rcases List.mem_cons.1 hp with h | hp'
          · rw [h]
            exact hx_lt
          · rcases List.mem_cons.1 hp' with h | hp''
            · rw [h]
              exact PVal.blt_ble_trans hx_lt hxa
            · exact hlt p (by simp [hp''])

/-! ### Uniqueness of sorted orders / minima under pairwise-distinct prices -/

/-- Two observations with different prices (the hypothesis under which the
input order of observations cannot influence the result). -/
def priceNe (a b : CardPrice) : Prop := a.price ≠ b.price

theorem priceNe_symmetric : Symmetric priceNe := fun _ _ h => Ne.symm h

theorem eq_of_mem_pairwise_priceNe :
    ∀ {l : List CardPrice}, l.Pairwise priceNe →
      ∀ {a b : CardPrice}, a ∈ l → b ∈ l → a.price = b.price → a = b
  | [], _, a, _, ha, _, _ => by simp at ha
  | x :: l, hp, a, b, ha, hb, hpr => by
    have hp' := List.pairwise_cons.1 hp
    rcases List.mem_cons.1 ha with rfl | ha'
    · rcases List.mem_cons.1 hb with rfl | hb'
      · rfl
      · exact absurd hpr (hp'.1 b hb')
    · rcases List.mem_cons.1 hb with rfl | hb'
      · exact absurd hpr.symm (hp'.1 a ha')
      · exact eq_of_mem_pairwise_priceNe hp'.2 ha' hb' hpr

theorem sorted_perm_pairwise_eq :
    ∀ {l₁ l₂ : List CardPrice}, l₁.Perm l₂ → List.Sorted leP l₁ → List.Sorted leP l₂ →
      l₁.Pairwise priceNe → l₁ = l₂
  | [], l₂, hp, _, _, _ => hp.nil_eq
  | a :: t₁, [], hp, _, _, _ => by simpa using hp.length_eq
  | a :: t₁, b :: t₂, hp, hs₁, hs₂, hne => by
    have hab : a = b := by
      have ha' : a ∈ b :: t₂ := hp.mem_iff.1 (List.mem_cons_self a t₁)
      have hb' : b ∈ a :: t₁ := hp.symm.mem_iff.1 (List.mem_cons_self b t₂)
      rcases List.mem_cons.1 ha' with h | ha2
      · exact h
      · rcases List.mem_cons.1 hb' with h | hb1
        · exact h.symm
        · have h1 : leP a b := List.rel_of_sorted_cons hs₁ b hb1
          have h2 : leP b a := List.rel_of_sorted_cons hs₂ a ha2
          have hpr : a.price = b.price := PVal.ble_antisymm h1 h2
          exact absurd hpr ((List.pairwise_cons.1 hne).1 b hb1)
    subst hab
    have h := sorted_perm_pairwise_eq (hp.cons_inv) hs₁.of_cons hs₂.of_cons
      (List.pairwise_cons.1 hne).2
    rw [h]

theorem sortByPrice_perm (l : List CardPrice) : (sortByPrice l).Perm l :=
  List.perm_insertionSort leP l

theorem sortByPrice_sorted (l : List CardPrice) : List.Sorted leP (sortByPrice l) :=
  List.sorted_insertionSort leP l

/-- Stable sorting is insensitive to the input order when no two elements
share a price. -/
theorem sortByPrice_eq_of_perm {l₁ l₂ : List CardPrice} (hp : l₁.Perm l₂)
    (hne : l₁.Pairwise priceNe) : sortByPrice l₁ = sortByPrice l₂ := by
  refine sorted_perm_pairwise_eq ?_ (sortByPrice_sorted l₁) (sortByPrice_sorted l₂) ?_
  · exact (sortByPrice_perm l₁).trans (hp.trans (sortByPrice_perm l₂).symm)
  · exact ((sortByPrice_perm l₁).pairwise_iff (fun h => Ne.symm h)).2 hne

/-- Python `min` is insensitive to the input order when no two elements share
a price. -/
theorem pyMinL_eq_of_perm {l₁ l₂ : List CardPrice} (hp : l₁.Perm l₂)
    (hne : l₁.Pairwise priceNe) : pyMinL l₁ = pyMinL l₂ := by
  cases l₁ with
  | nil => rw [hp.nil_eq]
  | cons f r =>
    cases l₂ with
    | nil => simpa using hp.length_eq
    | cons f₂ r₂ =>
      simp only [pyMinL]
      have h1 : pyMin f r ∈ f₂ :: r₂ := hp.mem_iff.1 (pyMin_mem r f)
      have h2 : pyMin f₂ r₂ ∈ f :: r := hp.symm.mem_iff.1 (pyMin_mem r₂ f₂)
      have hle1 : PVal.ble (pyMin f r).price (pyMin f₂ r₂).price = true :=
        pyMin_le r f _ h2
      have hle2 : PVal.ble (pyMin f₂ r₂).price (pyMin f r).price = true :=
        pyMin_le r₂ f₂ _ h1
      have hpr : (pyMin f r).price = (pyMin f₂ r₂).price :=
        PVal.ble_antisymm hle1 hle2
      exact eq_of_mem_pairwise_priceNe hne (pyMin_mem r f) h2 hpr

/-! ### Characterisation of the aggregation stages -/

theorem dlookup_groupByQuery (ap : List CardPrice) (name : String) :
    dlookup name (groupByQuery ap) =
      (match ap.filter (fun p => decide (p.original_query = name)) with
       | [] => none
       | l => some l) := by
  cases hfl : ap.filter (fun p => decide (p.original_query = name)) with
  | nil =>
    exact (dlookup_foldl_dappendK_eq_none_iff
      (fun p : CardPrice => p.original_query) (fun p => p) ap [] name).2 ⟨rfl, hfl⟩
  | cons q l =>
    cases hl : dlookup name (groupByQuery ap) with
    | none =>
      have h := (dlookup_foldl_dappendK_eq_none_iff
        (fun p : CardPrice => p.original_query) (fun p => p) ap [] name).1 hl
      rw [hfl] at h
      simp at h
    | some out =>
      have hg := getD_foldl_dappendK
        (fun p : CardPrice => p.original_query) (fun p => p) ap [] name
      rw [show (ap.foldl
          (fun d x => dappend x.original_query x d) []) = groupByQuery ap from rfl,
        hl] at hg
      simp only [Option.getD_some, dlookup, Option.getD_none, List.nil_append,
        List.map_id'] at hg
      rw [hg, hfl]

/-- The body of the `for card in cards` loop of `_analyze_without_filtering`
depends on the grouped price dict only through the found observations
answering the card's name. -/
def stepWithoutFF (ff : List CardPrice) (res : AnalysisResults) (card : Card) :
    AnalysisResults :=
  match ff with
  | [] => { res with not_found := res.not_found ++ [card.name] }
  | f :: rest =>
    let best_price := pyMin f rest
    { res with
      best_prices := dinsert card.name (mkBP card best_price) res.best_prices,
      buy_lists := dappend best_price.website
        (mkLine card.name card.quantity best_price) res.buy_lists }

theorem stepWithout_eq (ap : List CardPrice) (res : AnalysisResults) (card : Card) :
    stepWithout (groupByQuery ap) res card =
      stepWithoutFF (foundFor card.name ap) res card := by
  unfold stepWithout
  rw [dlookup_groupByQuery]
  cases hfl : ap.filter (fun p => decide (p.original_query = card.name)) with
  | nil =>
    have hf : foundFor card.name ap = [] := by
      rw [foundFor, hfl]
      rfl
    rw [hf]
    rfl
  | cons q l =>
    have hf : foundFor card.name ap = (q :: l).filter (·.found) := by
      rw [foundFor, hfl]
    rw [hf]
    rfl

theorem foldl_stepWithoutFF (F : Card → List CardPrice) :
    ∀ (cards : List Card) (res : AnalysisResults),
      cards.foldl (fun res c => stepWithoutFF (F c) res c) res =
        { best_prices :=
            (cards.filter (fun c => !(F c).isEmpty)).foldl
              (fun d c => dinsert c.name (mkBP c (pyMinL (F c))) d) res.best_prices,
          buy_lists :=
            (cards.filter (fun c => !(F c).isEmpty)).foldl
              (fun d c => dappend (pyMinL (F c)).website
                (mkLine c.name c.quantity (pyMinL (F c))) d) res.buy_lists,
          not_found :=
            res.not_found ++ (cards.filter (fun c => (F c).isEmpty)).map (·.name),
          summary := res.summary }
  | [], res => by simp
  | c :: cards, res => by
    simp only [List.foldl_cons, List.filter_cons]
    rw [foldl_stepWithoutFF F cards]
    cases hF : F c with
    | nil => simp [stepWithoutFF, hF]
    | cons f rest => simp [stepWithoutFF, hF, pyMinL]

theorem analyze_without_eq (ap : List CardPrice) (cards : List Card) :
    analyze_without_filtering ap cards =
      { best_prices :=
          (cards.filter (fun c => !(foundFor c.name ap).isEmpty)).foldl
            (fun d c => dinsert c.name (mkBP c (pyMinL (foundFor c.name ap))) d) [],
        buy_lists :=
          (cards.filter (fun c => !(foundFor c.name ap).isEmpty)).foldl
            (fun d c => dappend (pyMinL (foundFor c.name ap)).website
              (mkLine c.name c.quantity (pyMinL (foundFor c.name ap))) d) [],
        not_found :=
          (cards.filter (fun c => (foundFor c.name ap).isEmpty)).map (·.name),
        summary :=
          mkSummary
            ((cards.filter (fun c => !(foundFor c.name ap).isEmpty)).foldl
              (fun d c => dappend (pyMinL (foundFor c.name ap)).website
                (mkLine c.name c.quantity (pyMinL (foundFor c.name ap))) d) []) } := by
  have hstep : stepWithout (groupByQuery ap) =
      fun res c => stepWithoutFF (foundFor c.name ap) res c :=
    funext fun res => funext fun card => stepWithout_eq ap res card
  simp only [analyze_without_filtering]
  rw [hstep, foldl_stepWithoutFF (fun c => foundFor c.name ap) cards emptyResults]
  rfl

theorem analyze_without_not_found (ap : List CardPrice) (cards : List Card) :
    (analyze_without_filtering ap cards).not_found =
      (cards.filter (fun c => (foundFor c.name ap).isEmpty)).map (·.name) := by
  rw [analyze_without_eq]

theorem analyze_without_summary (ap : List CardPrice) (cards : List Card) :
    (analyze_without_filtering ap cards).summary =
      mkSummary (analyze_without_filtering ap cards).buy_lists := by
  rw [analyze_without_eq]

theorem analyze_without_bp_dlookup (ap : List CardPrice) (cards : List Card)
    (name : String) :
    dlookup name (analyze_without_filtering ap cards).best_prices =
      (((cards.filter (fun c => !(foundFor c.name ap).isEmpty)).filter
          (fun c => decide (c.name = name))).getLast?).map
        (fun c => mkBP c (pyMinL (foundFor c.name ap))) := by
  rw [analyze_without_eq]
  rw [dlookup_foldl_dinsertK (fun c : Card => c.name)
    (fun c => mkBP c (pyMinL (foundFor c.name ap)))
    (cards.filter (fun c => !(foundFor c.name ap).isEmpty)) [] name]
  rw [foldl_const_someK]
  cases ((cards.filter (fun c => !(foundFor c.name ap).isEmpty)).filter
      (fun c => decide (c.name = name))).getLast? with
  | none => rfl
  | some c => rfl

theorem analyze_without_lines_getD (ap : List CardPrice) (cards : List Card)
    (w : String) :
    (dlookup w (analyze_without_filtering ap cards).buy_lists).getD [] =
      ((cards.filter (fun c => !(foundFor c.name ap).isEmpty)).filter
          (fun c => decide ((pyMinL (foundFor c.name ap)).website = w))).map
        (fun c => mkLine c.name c.quantity (pyMinL (foundFor c.name ap))) := by
  rw [analyze_without_eq]
  rw [getD_foldl_dappendK (fun c : Card => (pyMinL (foundFor c.name ap)).website)
    (fun c => mkLine c.name c.quantity (pyMinL (foundFor c.name ap)))
    (cards.filter (fun c => !(foundFor c.name ap).isEmpty)) [] w]
  rfl

theorem analyze_without_bl_keys_nodup (ap : List CardPrice) (cards : List Card) :
    (dkeys (analyze_without_filtering ap cards).buy_lists).Nodup := by
  rw [analyze_without_eq]
  exact nodup_dkeys_foldl_dappendK _ _ _ [] (by simp [dkeys])

theorem analyze_without_bp_keys_nodup (ap : List CardPrice) (cards : List Card) :
    (dkeys (analyze_without_filtering ap cards).best_prices).Nodup := by
  rw [analyze_without_eq]
  exact nodup_dkeys_foldl_dinsertK _ _ _ [] (by simp [dkeys])

theorem analyze_without_totalCount (ap : List CardPrice) (cards : List Card)
    (p : BuyListEntry → Bool) :
    totalCountP p (analyze_without_filtering ap cards).buy_lists =
      (cards.filter (fun c => !(foundFor c.name ap).isEmpty)).countP
        (fun c => p (mkLine c.name c.quantity (pyMinL (foundFor c.name ap)))) := by
  rw [analyze_without_eq]
  rw [totalCountP_foldl_dappendK p (fun c : Card => (pyMinL (foundFor c.name ap)).website)
    (fun c => mkLine c.name c.quantity (pyMinL (foundFor c.name ap)))
    (cards.filter (fun c => !(foundFor c.name ap).isEmpty)) []]
  simp [totalCountP]

/-! ### Characterisation of the filtered-mode pipeline stages -/

/-- The options-building loop body depends on the grouped dict only through
the found observations of the processed card. -/
def stepOptionsFF (ff : List CardPrice)
    (st : List (String × Card × List CardPrice) × List String) (card : Card) :
    List (String × Card × List CardPrice) × List String :=
  match ff with
  | [] => (st.1, st.2 ++ [card.name])
  | _ :: _ => (dinsert card.name (card, sortByPrice ff) st.1, st.2)

theorem foldl_stepOptionsFF (F : Card → List CardPrice) :
    ∀ (cards : List Card) (st : List (String × Card × List CardPrice) × List String),
      cards.foldl (fun st c => stepOptionsFF (F c) st c) st =
        ((cards.filter (fun c => !(F c).isEmpty)).foldl
           (fun d c => dinsert c.name (c, sortByPrice (F c)) d) st.1,
         st.2 ++ (cards.filter (fun c => (F c).isEmpty)).map (·.name))
  | [], st => by simp
  | c :: cards, st => by
    simp only [List.foldl_cons, List.filter_cons]
    rw [foldl_stepOptionsFF F cards]
    cases hF : F c with
    | nil => simp [stepOptionsFF, hF]
    | cons f rest => simp [stepOptionsFF, hF]

theorem optionsAndNotFound_eq (ap : List CardPrice) (cards : List Card) :
    optionsAndNotFound ap cards =
      ((cards.filter (fun c => !(foundFor c.name ap).isEmpty)).foldl
         (fun d c => dinsert c.name (c, sortByPrice (foundFor c.name ap)) d) [],
       (cards.filter (fun c => (foundFor c.name ap).isEmpty)).map (·.name)) := by
  have hstep :
      (fun (st : List (String × Card × List CardPrice) × List String) (card : Card) =>
        match dlookup card.name (groupByQuery ap) with
        | some ps =>
          match ps.filter (·.found) with
          | [] => (st.1, st.2 ++ [card.name])
          | _ :: _ =>
            (dinsert card.name (card, sortByPrice (ps.filter (·.found))) st.1, st.2)
        | none => (st.1, st.2 ++ [card.name])) =
      fun st c => stepOptionsFF (foundFor c.name ap) st c := by
    funext st card
    rw [dlookup_groupByQuery]
    cases hfl : ap.filter (fun p => decide (p.original_query = card.name)) with
    | nil =>
      have hf : foundFor card.name ap = [] := by
        rw [foundFor, hfl]
        rfl
      rw [hf]
      rfl
    | cons q l =>
      have hf : foundFor card.name ap = (q :: l).filter (·.found) := by
        rw [foundFor, hfl]
      rw [hf]
      rfl
  show cards.foldl _ ([], []) = _
  rw [hstep, foldl_stepOptionsFF (fun c => foundFor c.name ap) cards ([], [])]
  rfl

theorem options_keys_nodup (ap : List CardPrice) (cards : List Card) :
    (dkeys (optionsAndNotFound ap cards).1).Nodup := by
  rw [optionsAndNotFound_eq]
  exact nodup_dkeys_foldl_dinsertK _ _ _ [] (by simp [dkeys])

theorem optionsFor_eq (ap : List CardPrice) (cards : List Card) (name : String) :
    optionsFor ap cards name =
      (((cards.filter (fun c => !(foundFor c.name ap).isEmpty)).filter
          (fun c => decide (c.name = name))).getLast?).map
        (fun c => (c, sortByPrice (foundFor c.name ap))) := by
  unfold optionsFor
  rw [optionsAndNotFound_eq]
  rw [dlookup_foldl_dinsertK (fun c : Card => c.name)
    (fun c => (c, sortByPrice (foundFor c.name ap)))
    (cards.filter (fun c => !(foundFor c.name ap).isEmpty)) [] name]
  rw [foldl_const_someK]
  cases ((cards.filter (fun c => !(foundFor c.name ap).isEmpty)).filter
      (fun c => decide (c.name = name))).getLast? with
  | none => rfl
  | some c => rfl

theorem initialAssignment_eq (opts : List (String × Card × List CardPrice))
    (h : (dkeys opts).Nodup) :
    initialAssignment opts = opts.map (fun ncp => (ncp.1, mkAssignment ncp.2)) := by
  unfold initialAssignment
  exact foldl_dinsert_eq_map (fun _ cps => mkAssignment cps) opts h

theorem initialAssignmentOf_eq (ap : List CardPrice) (cards : List Card) :
    initialAssignmentOf ap cards =
      (optionsAndNotFound ap cards).1.map (fun ncp => (ncp.1, mkAssignment ncp.2)) :=
  initialAssignment_eq _ (options_keys_nodup ap cards)

theorem initial_keys_nodup (ap : List CardPrice) (cards : List Card) :
    (dkeys (initialAssignmentOf ap cards)).Nodup := by
  rw [initialAssignmentOf_eq, dkeys_mapG (fun ncp => mkAssignment ncp.2)]
  exact options_keys_nodup ap cards

theorem vendorCards_getD (initial : List (String × Assignment)) (w : String) :
    (dlookup w (vendorCards initial)).getD [] =
      (initial.filter (fun na => decide (na.2.price_info.website = w))).map (·.1) := by
  unfold vendorCards
  rw [getD_foldl_dappendK (fun na : String × Assignment => na.2.price_info.website)
    (fun na => na.1) initial [] w]
  rfl

theorem vendorCards_keys_nodup (initial : List (String × Assignment)) :
    (dkeys (vendorCards initial)).Nodup := by
  unfold vendorCards
  exact nodup_dkeys_foldl_dappendK _ _ _ [] (by simp [dkeys])

/-- Membership in the `vendors_to_filter` set, stated through the
`vendor_cards` dict. -/
theorem mem_vendorsToFilter_iff (cfg : VendorFilterConfig)
    (vc : List (String × List String)) (hn : (dkeys vc).Nodup) (w : String) :
    w ∈ vendorsToFilter cfg vc ↔
      ∃ l, dlookup w vc = some l ∧ (l.length : Int) < cfg.min_cards_per_vendor := by
  unfold vendorsToFilter
  simp only [List.mem_map, List.mem_filter]
  constructor
  · rintro ⟨⟨w', l⟩, ⟨hmem, hlen⟩, rfl⟩
    exact ⟨l, dlookup_of_mem_nodup hn hmem, by simpa using hlen⟩
  · rintro ⟨l, hl, hlen⟩
    exact ⟨(w, l), ⟨mem_of_dlookup hl, by simpa using hlen⟩, rfl⟩

/-- The condition under which the override loop records a card. -/
def overrideCond (cfg : VendorFilterConfig) (vtf : List String) (a : Assignment) : Bool :=
  vtf.contains a.price_info.website &&
    match a.all_prices with
    | p0 :: p1 :: _ => PVal.subGe p1.price p0.price cfg.min_price_difference_override
    | _ => false

theorem cardsWithPriceOverride_aux (cfg : VendorFilterConfig) (vtf : List String) :
    ∀ (initial : List (String × Assignment)) (s : List String),
      initial.foldl
        (fun s na =>
          if vtf.contains na.2.price_info.website then
            match na.2.all_prices with
            | p0 :: p1 :: _ =>
              if PVal.subGe p1.price p0.price cfg.min_price_difference_override then
                s ++ [na.1]
              else s
            | _ => s
          else s) s =
        s ++ (initial.filter (fun na => overrideCond cfg vtf na.2)).map (·.1)
  | [], s => by simp
  | na :: initial, s => by
    simp only [List.foldl_cons, List.filter_cons]
    by_cases h1 : vtf.contains na.2.price_info.website = true
    · have h1' : na.2.price_info.website ∈ vtf := by simpa using h1
      cases hap : na.2.all_prices with
      | nil =>
        rw [cardsWithPriceOverride_aux cfg vtf initial]
        simp [overrideCond, h1, h1', hap]
      | cons p0 rest =>
        cases rest with
        | nil =>
          rw [cardsWithPriceOverride_aux cfg vtf initial]
          simp [overrideCond, h1, h1', hap]
        | cons p1 rest' =>
          by_cases h2 :
              PVal.subGe p1.price p0.price cfg.min_price_difference_override = true
          · rw [cardsWithPriceOverride_aux cfg vtf initial]
            simp [overrideCond, h1, h1', hap, h2]
          · rw [cardsWithPriceOverride_aux cfg vtf initial]
            simp [overrideCond, h1, h1', hap, h2]
    · have h1' : na.2.price_info.website ∉ vtf := by simpa using h1
      rw [cardsWithPriceOverride_aux cfg vtf initial]
      simp [overrideCond, h1, h1']

theorem cardsWithPriceOverride_eq (cfg : VendorFilterConfig) (vtf : List String)
    (initial : List (String × Assignment)) :
    cardsWithPriceOverride cfg vtf initial =
      (initial.filter (fun na => overrideCond cfg vtf na.2)).map (·.1) := by
  have h := cardsWithPriceOverride_aux cfg vtf initial []
  simpa [cardsWithPriceOverride] using h

/-- The per-item decision of the final-assignment loop: keep the tentative
assignment, or fall to the rank-1 option. -/
def finalizeAssignment (vtf overrides : List String) (n : String) (a : Assignment) :
    Assignment :=
  if !(vtf.contains a.price_info.website) || overrides.contains n then a
  else
    match a.all_prices with
    | _ :: p1 :: _ => ⟨a.card, p1, a.all_prices⟩
    | _ => a

theorem finalAssignment_eq_map (vtf ovr : List String)
    (initial : List (String × Assignment)) (hn : (dkeys initial).Nodup) :
    finalAssignment vtf ovr initial =
      initial.map (fun na => (na.1, finalizeAssignment vtf ovr na.1 na.2)) := by
  have hstep : finalAssignment vtf ovr initial =
      initial.foldl
        (fun fa na => dinsert na.1 (finalizeAssignment vtf ovr na.1 na.2) fa) [] := by
    unfold finalAssignment
    congr 1
    funext fa na
    unfold finalizeAssignment
    by_cases h : (!(vtf.contains na.2.price_info.website) || ovr.contains na.1) = true
    · rw [if_pos h, if_pos h]
    · rw [if_neg h, if_neg h]
      cases na.2.all_prices with
      | nil => rfl
      | cons p0 rest =>
        cases rest with
        | nil => rfl
        | cons p1 rest' => rfl
  rw [hstep]
  exact foldl_dinsert_eq_map (finalizeAssignment vtf ovr) initial hn

theorem finalAssignmentOf_eq (cfg : VendorFilterConfig) (ap : List CardPrice)
    (cards : List Card) :
    finalAssignmentOf cfg ap cards =
      (initialAssignmentOf ap cards).map
        (fun na => (na.1,
          finalizeAssignment (vendorsToFilterOf cfg ap cards)
            (cardsWithPriceOverrideOf cfg ap cards) na.1 na.2)) :=
  finalAssignment_eq_map _ _ _ (initial_keys_nodup ap cards)

theorem final_keys_nodup (cfg : VendorFilterConfig) (ap : List CardPrice)
    (cards : List Card) :
    (dkeys (finalAssignmentOf cfg ap cards)).Nodup := by
  rw [finalAssignmentOf_eq,
    dkeys_mapG (fun na => finalizeAssignment (vendorsToFilterOf cfg ap cards)
      (cardsWithPriceOverrideOf cfg ap cards) na.1 na.2)]
  exact initial_keys_nodup ap cards

theorem foldl_buildStep :
    ∀ (final : List (String × Assignment)) (res : AnalysisResults),
      final.foldl
        (fun res na =>
          { res with
            best_prices := dinsert na.1 (mkBP na.2.card na.2.price_info) res.best_prices,
            buy_lists := dappend na.2.price_info.website
              (mkLine na.1 na.2.card.quantity na.2.price_info) res.buy_lists }) res =
        { res with
          best_prices := final.foldl
            (fun d na => dinsert na.1 (mkBP na.2.card na.2.price_info) d)
            res.best_prices,
          buy_lists := final.foldl
            (fun d na => dappend na.2.price_info.website
              (mkLine na.1 na.2.card.quantity na.2.price_info) d) res.buy_lists }
  | [], res => by simp
  | na :: final, res => by
    simp only [List.foldl_cons]
    rw [foldl_buildStep final]

theorem buildResults_eq (nf : List String) (final : List (String × Assignment)) :
    buildResults nf final =
      { best_prices := final.foldl
          (fun d na => dinsert na.1 (mkBP na.2.card na.2.price_info) d) [],
        buy_lists := final.foldl
          (fun d na => dappend na.2.price_info.website
            (mkLine na.1 na.2.card.quantity na.2.price_info) d) [],
        not_found := nf,
        summary := mkSummary (final.foldl
          (fun d na => dappend na.2.price_info.website
            (mkLine na.1 na.2.card.quantity na.2.price_info) d) []) } := by
  simp only [buildResults]
  rw [foldl_buildStep]
  rfl

theorem analyze_with_eq (cfg : VendorFilterConfig) (ap : List CardPrice)
    (cards : List Card) :
    analyze_with_filtering cfg ap cards =
      buildResults (optionsAndNotFound ap cards).2 (finalAssignmentOf cfg ap cards) :=
  rfl

theorem analyze_with_not_found (cfg : VendorFilterConfig) (ap : List CardPrice)
    (cards : List Card) :
    (analyze_with_filtering cfg ap cards).not_found =
      (cards.filter (fun c => (foundFor c.name ap).isEmpty)).map (·.name) := by
  rw [analyze_with_eq, buildResults_eq, optionsAndNotFound_eq]

theorem analyze_with_summary (cfg : VendorFilterConfig) (ap : List CardPrice)
    (cards : List Card) :
    (analyze_with_filtering cfg ap cards).summary =
      mkSummary (analyze_with_filtering cfg ap cards).buy_lists := by
  rw [analyze_with_eq, buildResults_eq]

theorem analyze_with_bp_dlookup (cfg : VendorFilterConfig) (ap : List CardPrice)
    (cards : List Card) (name : String) :
    dlookup name (analyze_with_filtering cfg ap cards).best_prices =
      (((finalAssignmentOf cfg ap cards).filter
          (fun na => decide (na.1 = name))).getLast?).map
        (fun na => mkBP na.2.card na.2.price_info) := by
  rw [analyze_with_eq, buildResults_eq]
  rw [dlookup_foldl_dinsertK (fun na : String × Assignment => na.1)
    (fun na => mkBP na.2.card na.2.price_info) (finalAssignmentOf cfg ap cards) [] name]
  rw [foldl_const_someK]
  cases ((finalAssignmentOf cfg ap cards).filter
      (fun na => decide (na.1 = name))).getLast? with
  | none => rfl
  | some na => rfl

theorem analyze_with_lines_getD (cfg : VendorFilterConfig) (ap : List CardPrice)
    (cards : List Card) (w : String) :
    (dlookup w (analyze_with_filtering cfg ap cards).buy_lists).getD [] =
      ((finalAssignmentOf cfg ap cards).filter
          (fun na => decide (na.2.price_info.website = w))).map
        (fun na => mkLine na.1 na.2.card.quantity na.2.price_info) := by
  rw [analyze_with_eq, buildResults_eq]
  rw [getD_foldl_dappendK (fun na : String × Assignment => na.2.price_info.website)
    (fun na => mkLine na.1 na.2.card.quantity na.2.price_info)
    (finalAssignmentOf cfg ap cards) [] w]
  rfl

theorem analyze_with_bl_keys_nodup (cfg : VendorFilterConfig) (ap : List CardPrice)
    (cards : List Card) :
    (dkeys (analyze_with_filtering cfg ap cards).buy_lists).Nodup := by
  rw [analyze_with_eq, buildResults_eq]
  exact nodup_dkeys_foldl_dappendK _ _ _ [] (by simp [dkeys])

theorem analyze_with_bp_keys_nodup (cfg : VendorFilterConfig) (ap : List CardPrice)
    (cards : List Card) :
    (dkeys (analyze_with_filtering cfg ap cards).best_prices).Nodup := by
  rw [analyze_with_eq, buildResults_eq]
  exact nodup_dkeys_foldl_dinsertK _ _ _ [] (by simp [dkeys])

theorem analyze_with_totalCount (cfg : VendorFilterConfig) (ap : List CardPrice)
    (cards : List Card) (p : BuyListEntry → Bool) :
    totalCountP p (analyze_with_filtering cfg ap cards).buy_lists =
      (finalAssignmentOf cfg ap cards).countP
        (fun na => p (mkLine na.1 na.2.card.quantity na.2.price_info)) := by
  rw [analyze_with_eq, buildResults_eq]
  rw [totalCountP_foldl_dappendK p
    (fun na : String × Assignment => na.2.price_info.website)
    (fun na => mkLine na.1 na.2.card.quantity na.2.price_info)
    (finalAssignmentOf cfg ap cards) []]
  simp [totalCountP]

/-- `mkSummary` over a dict with distinct keys (always the case for
`buy_lists`) is entry-wise. -/
theorem mkSummary_eq (bl : List (String × List BuyListEntry))
    (hn : (dkeys bl).Nodup) :
    mkSummary bl =
      bl.map (fun wl => (wl.1,
        (⟨wl.2.length, round2 (sumPrices (wl.2.map (·.total_price)))⟩ : SummaryEntry))) := by
  unfold mkSummary
  exact foldl_dinsert_eq_map
    (fun _ l => (⟨l.length, round2 (sumPrices (l.map (·.total_price)))⟩ : SummaryEntry))
    bl hn

/-! ### Support lemmas for the parser claims -/

theorem drop_takeWhile_length {α : Type} (p : α → Bool) :
    ∀ l : List α, l.drop (l.takeWhile p).length = l.dropWhile p
  | [] => rfl
  | a :: l => by
    by_cases h : p a
    · simp [List.takeWhile_cons_of_pos h, List.dropWhile_cons_of_pos h,
        drop_takeWhile_length p l]
    · simp [List.takeWhile_cons_of_neg h, List.dropWhile_cons_of_neg h]

theorem head_dropWhile_false {α : Type} (p : α → Bool) :
    ∀ (l : List α) (c : α) (rest : List α), l.dropWhile p = c :: rest → p c = false
  | [], c, rest, h => by simp at h
  | a :: l, c, rest, h => by
    by_cases ha : p a
    · rw [List.dropWhile_cons_of_pos ha] at h
      exact head_dropWhile_false p l c rest h
    · rw [List.dropWhile_cons_of_neg ha] at h
      rw [← (List.cons_eq_cons.1 h).1]
      simpa using ha

theorem mem_of_mem_dropWhile {α : Type} (p : α → Bool) :
    ∀ {l : List α} {c : α}, c ∈ l.dropWhile p → c ∈ l
  | [], _, h => by simp at h
  | a :: l, c, h => by
    by_cases ha : p a
    · rw [List.dropWhile_cons_of_pos ha] at h
      exact List.mem_cons_of_mem a (mem_of_mem_dropWhile p h)
    · rwa [List.dropWhile_cons_of_neg ha] at h

theorem pstrip_eq_nil_iff (l : List Char) :
    pstrip l = [] ↔ ∀ c ∈ l, isWS c = true := by
  unfold pstrip
  rw [List.reverse_eq_nil_iff, List.dropWhile_eq_nil_iff]
  constructor
  · intro h c hc
    cases hrev : (l.dropWhile isWS) with
    | nil =>
      rw [List.dropWhile_eq_nil_iff] at hrev
      exact hrev c hc
    | cons d rest =>
      exfalso
      have hd : isWS d = false := head_dropWhile_false isWS l d rest hrev
      have hd' : isWS d = true := h d (by simp [hrev])
      rw [hd] at hd'
      exact Bool.noConfusion hd'
  · intro h c hc
    have hc' : c ∈ l.dropWhile isWS := List.mem_reverse.1 hc
    exact h c (mem_of_mem_dropWhile isWS hc')

theorem splitNameTail_shape :
    ∀ (l acc g2 : List Char) (g : Option (List Char × List Char)),
      splitNameTail acc l = some (g2, g) →
      ∃ pre suf, l = pre ++ suf ∧ pre ≠ [] ∧ g2 = acc ++ pre
  | [], _, _, _, h => by simp [splitNameTail] at h
  | c :: rest, acc, g2, g, h => by
    rw [splitNameTail] at h
    cases hmt : matchTail rest with
    | some g' =>
      rw [hmt] at h
      have h2 := Option.some.inj h
      exact ⟨[c], rest, by simp, by simp, ((Prod.ext_iff.1 h2).1).symm⟩
    | none =>
      rw [hmt] at h
      obtain ⟨pre, suf, hls, hpre, hg2⟩ :=
        splitNameTail_shape rest (acc ++ [c]) g2 g h
      exact ⟨c :: pre, suf, by simp [hls], by simp, by simp [hg2]⟩

theorem matchLine_name_nonempty {l : List Char} {q : Nat} {nameRaw : List Char}
    {sc cn : Option (List Char)}
    (h : matchLine l = some (q, nameRaw, sc, cn)) : pstrip nameRaw ≠ [] := by
  simp only [matchLine] at h
  by_cases hd : (l.takeWhile Char.isDigit).isEmpty
  · rw [if_pos hd] at h
    exact absurd h (by simp)
  · rw [if_neg hd] at h
    set rest1 := l.drop (l.takeWhile Char.isDigit).length with hrest1
    by_cases hw : (rest1.takeWhile isWS).isEmpty
    · rw [if_pos hw] at h
      exact absurd h (by simp)
    · rw [if_neg hw] at h
      set r := rest1.drop (rest1.takeWhile isWS).length with hrdef
      cases hs : splitNameTail [] r with
      | none =>
        rw [hs] at h
        exact absurd h (by simp)
      | some out =>
        obtain ⟨g2, g⟩ := out
        rw [hs] at h
        have hg2 : g2 = nameRaw := by
          cases g with
          | none =>
            simp only [Option.some.injEq, Prod.mk.injEq] at h
            exact h.2.1
          | some sc' =>
            simp only [Option.some.injEq, Prod.mk.injEq] at h
            exact h.2.1
        obtain ⟨pre, suf, hls, hpre, hshape⟩ :=
          splitNameTail_shape r [] g2 g hs
        simp only [List.nil_append] at hshape
        have hr_drop : r = rest1.dropWhile isWS := by
          rw [hrdef, drop_takeWhile_length]
        cases hpre' : pre with
        | nil => exact absurd hpre' hpre
        | cons c pre' =>
          have hrhead : r = c :: (pre' ++ suf) := by
            rw [hls, hpre']
            simp
          have hnws : isWS c = false := by
            apply head_dropWhile_false isWS rest1 c (pre' ++ suf)
            rw [← hr_drop]
            exact hrhead
          intro hnil
          rw [← hg2, hshape, hpre'] at hnil
          have hcontr := (pstrip_eq_nil_iff (c :: pre')).1 hnil c (by simp)
          rw [hnws] at hcontr
          exact Bool.noConfusion hcontr

/-- Helper: every card the parser emits has a name that does not strip to
nothing. -/
theorem parse_moxfield_sound (s : String) :
    ∀ c ∈ parse_moxfield_format s, c.name ≠ "" := by
  unfold parse_moxfield_format
  generalize splitNL (pstrip s.toList) = lines
  have main :
      ∀ (lines : List (List Char)) (acc : List Card),
        (∀ c ∈ acc, c.name ≠ "") →
        ∀ c ∈ lines.foldl
          (fun cards line =>
            if (pstrip line).isEmpty then cards
            else
              match matchLine (pstrip line) with
              | some (q, nameRaw, sc, cn) =>
                cards ++ [⟨q, ⟨pstrip nameRaw⟩, sc.map (⟨·⟩), cn.map (⟨·⟩)⟩]
              | none => cards) acc,
          c.name ≠ "" := by
    intro lines
    induction lines with
    | nil => intro acc hacc c hc; exact hacc c hc
    | cons line rest ih =>
      intro acc hacc c hc
      simp only [List.foldl_cons] at hc
      by_cases hemp : (pstrip line).isEmpty
      · rw [if_pos hemp] at hc
        exact ih acc hacc c hc
      · rw [if_neg hemp] at hc
        cases hm : matchLine (pstrip line) with
        | none =>
          rw [hm] at hc
          exact ih acc hacc c hc
        | some out =>
          obtain ⟨q, nameRaw, sc, cn⟩ := out
          rw [hm] at hc
          refine ih _ ?_ c hc
          intro c' hc'
          rcases List.mem_append.1 hc' with hmem | hmem
          · exact hacc c' hmem
          · rw [List.mem_singleton.1 hmem]
            intro hname
            have hnil : pstrip nameRaw = [] := by
              have := congrArg String.data hname
              simpa using this
            exact matchLine_name_nonempty hm hnil
  exact main lines [] (by simp)

/-! ### Claim C8 -/

/-- C8, as stated, is falsified by the line `"0 Island"`: the pattern
`^(\d+)\s+...` accepts a quantity of `0`, so the parser emits a card with
quantity 0. -/
theorem claim_C8_counterexample :
    ¬ (∀ c ∈ parse_moxfield_format "0 Island", 1 ≤ c.quantity) := by
  decide

/-- C8 (amended): for every input text, every `Card` produced by
`parse_moxfield_format` has a non-empty name and a (nonnegative) quantity;
quantity 0 is accepted, so "at least 1" does not hold. -/
theorem claim_C8_theorem (s : String) :
    ∀ c ∈ parse_moxfield_format s, c.name ≠ "" ∧ 0 ≤ c.quantity :=
  fun c hc => ⟨parse_moxfield_sound s c hc, Nat.zero_le _⟩

theorem claim_C8_witness :
    (⟨1, "Island", none, none⟩ : Card) ∈ parse_moxfield_format "1 Island" ∧
    ((⟨1, "Island", none, none⟩ : Card).name ≠ "" ∧
      0 ≤ (⟨1, "Island", none, none⟩ : Card).quantity) :=
  ⟨by decide, claim_C8_theorem "1 Island" _ (by decide)⟩

/-! ### Claim C10 -/

/-- C10: when the price text contains no digit, `_parse_price` returns the
infinity sentinel, yet `_extract_prices` stores the observation with
`found=True`; such an observation passes the `found` filter of the manager's
aggregation (here stated through `foundFor`), so it takes part in
min-selection and sorting like any finite price. -/
theorem claim_C10_theorem (card_name price_text quantity_title : String)
    (hnd : ∀ c ∈ price_text.toList, c.isDigit = false) :
    (cryptmtg_found_card card_name price_text quantity_title).price = PVal.inf ∧
    (cryptmtg_found_card card_name price_text quantity_title).found = true ∧
    foundFor card_name [cryptmtg_found_card card_name price_text quantity_title] =
      [cryptmtg_found_card card_name price_text quantity_title] := by
  refine ⟨?_, rfl, ?_⟩
  · show cryptmtg_parse_price price_text = PVal.inf
    unfold cryptmtg_parse_price pyFloatOfDigitsDots
    have hany :
        (((price_text.toList.filter
            (fun c => Char.isDigit c || c = '.' || c = ',')).filter
          (fun c => !(c = ','))).any Char.isDigit) = false := by
      rw [List.any_eq_false]
      intro c hc
      have hc1 := List.mem_of_mem_filter (List.mem_of_mem_filter hc)
      simpa using hnd c hc1
    simp only [hany, Bool.false_and, if_false]
    rfl
  · simp [foundFor, cryptmtg_found_card]

theorem claim_C10_witness :
    (∀ c ∈ ("N/A" : String).toList, c.isDigit = false) ∧
    ((cryptmtg_found_card "Sol Ring" "N/A" "1 / 3").price = PVal.inf ∧
     (cryptmtg_found_card "Sol Ring" "N/A" "1 / 3").found = true ∧
     foundFor "Sol Ring" [cryptmtg_found_card "Sol Ring" "N/A" "1 / 3"] =
       [cryptmtg_found_card "Sol Ring" "N/A" "1 / 3"]) :=
  ⟨by decide, claim_C10_theorem "Sol Ring" "N/A" "1 / 3" (by decide)⟩

/-! ### Claim C7 -/

/-- C7 is contradicted by the code: neither `VendorFilterConfig` (a plain
dataclass) nor `scrape_all` validates `min_cards_per_vendor`. With
`min_cards_per_vendor < 1` the engine raises no error at all: every vendor
count comparison `len < min` is false, so no vendor is filtered, the final
assignment equals the naive initial assignment, and a normal result is
produced. -/
theorem claim_C7_theorem (cfg : VendorFilterConfig) (ap : List CardPrice)
    (cards : List Card) (h : cfg.min_cards_per_vendor < 1) :
    vendorsToFilterOf cfg ap cards = [] ∧
    finalAssignmentOf cfg ap cards = initialAssignmentOf ap cards ∧
    analyze_with_filtering cfg ap cards =
      buildResults (optionsAndNotFound ap cards).2 (initialAssignmentOf ap cards) := by
  have hvtf : vendorsToFilterOf cfg ap cards = [] := by
    unfold vendorsToFilterOf vendorsToFilter
    have : (vendorCardsOf ap cards).filter
        (fun wl => decide ((wl.2.length : Int) < cfg.min_cards_per_vendor)) = [] := by
      rw [List.filter_eq_nil_iff]
      intro wl _
      simp only [decide_eq_true_eq]
      intro hlt
      have h0 : (0 : Int) ≤ (wl.2.length : Int) := Int.ofNat_nonneg _
      omega
    rw [this]
    rfl
  have hfin : finalAssignmentOf cfg ap cards = initialAssignmentOf ap cards := by
    unfold finalAssignmentOf
    rw [hvtf]
    rw [finalAssignment_eq_map _ _ _ (initial_keys_nodup ap cards)]
    have : ∀ na : String × Assignment,
        finalizeAssignment [] (cardsWithPriceOverrideOf cfg ap cards) na.1 na.2 =
          na.2 := by
      intro na
      unfold finalizeAssignment
      simp [List.contains]
    simp only [this]
    rw [show (fun na : String × Assignment => (na.1, na.2)) = id from rfl, List.map_id]
  exact ⟨hvtf, hfin, by rw [analyze_with_eq, hfin]⟩

theorem claim_C7_witness :
    ((⟨0, 5, true⟩ : VendorFilterConfig).min_cards_per_vendor < 1) ∧
    (vendorsToFilterOf ⟨0, 5, true⟩ [⟨"A", "A", .fin 1, "X", true, 1⟩]
        [⟨1, "A", none, none⟩] = [] ∧
     finalAssignmentOf ⟨0, 5, true⟩ [⟨"A", "A", .fin 1, "X", true, 1⟩]
        [⟨1, "A", none, none⟩] =
       initialAssignmentOf [⟨"A", "A", .fin 1, "X", true, 1⟩] [⟨1, "A", none, none⟩] ∧
     analyze_with_filtering ⟨0, 5, true⟩ [⟨"A", "A", .fin 1, "X", true, 1⟩]
        [⟨1, "A", none, none⟩] =
       buildResults
         (optionsAndNotFound [⟨"A", "A", .fin 1, "X", true, 1⟩] [⟨1, "A", none, none⟩]).2
         (initialAssignmentOf [⟨"A", "A", .fin 1, "X", true, 1⟩] [⟨1, "A", none, none⟩])) :=
  ⟨by decide, claim_C7_theorem ⟨0, 5, true⟩ [⟨"A", "A", .fin 1, "X", true, 1⟩]
    [⟨1, "A", none, none⟩] (by decide)⟩

/-! ### Claim C3 -/

theorem contains_eq_true_iff {l : List String} {x : String} :
    l.contains x = true ↔ x ∈ l := by
  simp

theorem dlookup_initialAssignmentOf {ap : List CardPrice} {cards : List Card}
    {n : String} {a : Assignment} (hmem : (n, a) ∈ initialAssignmentOf ap cards) :
    dlookup n (initialAssignmentOf ap cards) = some a :=
  dlookup_of_mem_nodup (initial_keys_nodup ap cards) hmem

theorem dlookup_finalAssignmentOf (cfg : VendorFilterConfig) {ap : List CardPrice}
    {cards : List Card} {n : String} {a : Assignment}
    (hmem : (n, a) ∈ initialAssignmentOf ap cards) :
    dlookup n (finalAssignmentOf cfg ap cards) =
      some (finalizeAssignment (vendorsToFilterOf cfg ap cards)
        (cardsWithPriceOverrideOf cfg ap cards) n a) := by
  rw [finalAssignmentOf_eq]
  apply dlookup_of_mem_nodup
  · rw [dkeys_mapG (fun na => finalizeAssignment (vendorsToFilterOf cfg ap cards)
      (cardsWithPriceOverrideOf cfg ap cards) na.1 na.2)]
    exact initial_keys_nodup ap cards
  · exact List.mem_map_of_mem _ hmem

theorem mem_cardsWithPriceOverrideOf_iff (cfg : VendorFilterConfig)
    (ap : List CardPrice) (cards : List Card) (n : String) :
    n ∈ cardsWithPriceOverrideOf cfg ap cards ↔
      ∃ a, (n, a) ∈ initialAssignmentOf ap cards ∧
        overrideCond cfg (vendorsToFilterOf cfg ap cards) a = true := by
  unfold cardsWithPriceOverrideOf
  rw [cardsWithPriceOverride_eq]
  simp only [List.mem_map, List.mem_filter]
  constructor
  · rintro ⟨⟨n', a⟩, ⟨hmem, hcond⟩, rfl⟩
    exact ⟨a, hmem, hcond⟩
  · rintro ⟨a, hmem, hcond⟩
    exact ⟨(n, a), ⟨hmem, hcond⟩, rfl⟩

/-- C3: in filtered mode, an item tentatively assigned to a vendor whose
tentative item count is strictly below `min_cards_per_vendor` keeps its
rank-0 assignment when the rank-1/rank-0 price gap reaches
`min_price_difference_override` or when no second option exists, and is
otherwise reassigned to its rank-1 option. -/
theorem claim_C3_theorem (cfg : VendorFilterConfig) (ap : List CardPrice)
    (cards : List Card) (n : String) (a : Assignment)
    (hmem : (n, a) ∈ initialAssignmentOf ap cards)
    (ws : List String)
    (hvc : dlookup a.price_info.website (vendorCardsOf ap cards) = some ws)
    (hlen : (ws.length : Int) < cfg.min_cards_per_vendor) :
    (∀ p0 p1 rest, a.all_prices = p0 :: p1 :: rest →
      (PVal.subGe p1.price p0.price cfg.min_price_difference_override = true →
        dlookup n (finalAssignmentOf cfg ap cards) = some a) ∧
      (PVal.subGe p1.price p0.price cfg.min_price_difference_override = false →
        dlookup n (finalAssignmentOf cfg ap cards) =
          some ⟨a.card, p1, a.all_prices⟩)) ∧
    (a.all_prices.length ≤ 1 →
      dlookup n (finalAssignmentOf cfg ap cards) = some a) := by
  have hw : a.price_info.website ∈ vendorsToFilterOf cfg ap cards :=
    (mem_vendorsToFilter_iff cfg _ (vendorCards_keys_nodup _) _).2 ⟨ws, hvc, hlen⟩
  have hfin := dlookup_finalAssignmentOf cfg hmem
  constructor
  · intro p0 p1 rest hap
    constructor
    · intro hov
      have hovr : n ∈ cardsWithPriceOverrideOf cfg ap cards := by
        rw [mem_cardsWithPriceOverrideOf_iff]
        refine ⟨a, hmem, ?_⟩
        unfold overrideCond
        rw [hap]
        simp [hov, hw]
      rw [hfin]
      unfold finalizeAssignment
      rw [if_pos (by simp; exact Or.inr hovr)]
    · intro hov
      have hnovr : n ∉ cardsWithPriceOverrideOf cfg ap cards := by
        rw [mem_cardsWithPriceOverrideOf_iff]
        rintro ⟨a', hmem', hcond⟩
        have ha : a' = a := by
          have h1 := dlookup_initialAssignmentOf hmem
          have h2 := dlookup_initialAssignmentOf hmem'
          rw [h1] at h2
          exact (Option.some.inj h2).symm
        rw [ha] at hcond
        unfold overrideCond at hcond
        rw [hap] at hcond
        simp [hov] at hcond
      rw [hfin]
      unfold finalizeAssignment
      rw [if_neg (by
        simp only [Bool.or_eq_true, Bool.not_eq_true', Bool.not_eq_true]
        push_neg
        constructor
        · simpa using contains_eq_true_iff.2 hw
        · simpa using hnovr)]
      rw [hap]
  · intro hlen1
    rw [hfin]
    unfold finalizeAssignment
    by_cases hc : (!((vendorsToFilterOf cfg ap cards).contains a.price_info.website) ||
        (cardsWithPriceOverrideOf cfg ap cards).contains n) = true
    · rw [if_pos hc]
    · rw [if_neg hc]
      cases hap : a.all_prices with
      | nil => rfl
      | cons p0 rest =>
        cases rest with
        | nil => rfl
        | cons p1 rest' =>
          rw [hap] at hlen1
          simp at hlen1

theorem claim_C3_witness :
    (("A", (⟨⟨1, "A", none, none⟩, ⟨"A", "A", .fin 1, "X", true, 1⟩,
        [⟨"A", "A", .fin 1, "X", true, 1⟩, ⟨"A", "A", .fin 2, "Y", true, 1⟩]⟩ :
          Assignment)) ∈
      initialAssignmentOf
        [⟨"A", "A", .fin 1, "X", true, 1⟩, ⟨"A", "A", .fin 2, "Y", true, 1⟩,
         ⟨"B", "B", .fin 1, "Z", true, 1⟩, ⟨"C", "C", .fin 1, "Z", true, 1⟩]
        [⟨1, "A", none, none⟩, ⟨1, "B", none, none⟩, ⟨1, "C", none, none⟩]) ∧
    dlookup "A" (finalAssignmentOf ⟨2, 5, true⟩
      [⟨"A", "A", .fin 1, "X", true, 1⟩, ⟨"A", "A", .fin 2, "Y", true, 1⟩,
       ⟨"B", "B", .fin 1, "Z", true, 1⟩, ⟨"C", "C", .fin 1, "Z", true, 1⟩]
      [⟨1, "A", none, none⟩, ⟨1, "B", none, none⟩, ⟨1, "C", none, none⟩]) =
      some ⟨⟨1, "A", none, none⟩, ⟨"A", "A", .fin 2, "Y", true, 1⟩,
        [⟨"A", "A", .fin 1, "X", true, 1⟩, ⟨"A", "A", .fin 2, "Y", true, 1⟩]⟩ :=
  ⟨by decide,
   ((claim_C3_theorem ⟨2, 5, true⟩
      [⟨"A", "A", .fin 1, "X", true, 1⟩, ⟨"A", "A", .fin 2, "Y", true, 1⟩,
       ⟨"B", "B", .fin 1, "Z", true, 1⟩, ⟨"C", "C", .fin 1, "Z", true, 1⟩]
      [⟨1, "A", none, none⟩, ⟨1, "B", none, none⟩, ⟨1, "C", none, none⟩] "A"
      ⟨⟨1, "A", none, none⟩, ⟨"A", "A", .fin 1, "X", true, 1⟩,
        [⟨"A", "A", .fin 1, "X", true, 1⟩, ⟨"A", "A", .fin 2, "Y", true, 1⟩]⟩
      (by decide) ["A"] (by decide) (by decide)).1
      ⟨"A", "A", .fin 1, "X", true, 1⟩ ⟨"A", "A", .fin 2, "Y", true, 1⟩ [] rfl).2
    (by decide)⟩

/-! ### Claim C4 -/

/-- C4: in unfiltered mode, every requested item with at least one found
observation gets a `best_prices` entry whose unit price is a minimum over
all found observations for that item, attained by the earliest such
observation (everything before it is strictly more expensive), and the
item's buy-list line carries that same unit price. -/
theorem claim_C4_theorem (ap : List CardPrice) (cards : List Card) (c : Card)
    (hc : c ∈ cards) (f : CardPrice) (rest : List CardPrice)
    (hff : foundFor c.name ap = f :: rest) :
    ∃ e, dlookup c.name (analyze_without_filtering ap cards).best_prices = some e ∧
      e.best_price = (pyMin f rest).price ∧
      e.website = (pyMin f rest).website ∧
      (∀ p ∈ foundFor c.name ap, PVal.ble e.best_price p.price = true) ∧
      (∃ l₁ l₂, foundFor c.name ap = l₁ ++ (pyMin f rest) :: l₂ ∧
        ∀ p ∈ l₁, PVal.blt e.best_price p.price = true) ∧
      ∃ line ∈ (dlookup (pyMin f rest).website
          (analyze_without_filtering ap cards).buy_lists).getD [],
        line.card = c.name ∧ line.price_per_unit = (pyMin f rest).price := by
  have hne : !(foundFor c.name ap).isEmpty := by
    rw [hff]
    rfl
  have hc1 : c ∈ (cards.filter (fun c => !(foundFor c.name ap).isEmpty)).filter
      (fun c' => decide (c'.name = c.name)) := by
    rw [List.mem_filter, List.mem_filter]
    exact ⟨⟨hc, hne⟩, by simp⟩
  have hlast : ∃ c'', ((cards.filter (fun c => !(foundFor c.name ap).isEmpty)).filter
      (fun c' => decide (c'.name = c.name))).getLast? = some c'' := by
    cases hg : ((cards.filter (fun c => !(foundFor c.name ap).isEmpty)).filter
        (fun c' => decide (c'.name = c.name))).getLast? with
    | none =>
      rw [List.getLast?_eq_none_iff] at hg
      rw [hg] at hc1
      exact absurd hc1 (List.not_mem_nil c)
    | some c'' => exact ⟨c'', rfl⟩
  obtain ⟨c'', hg⟩ := hlast
  have hc''mem := List.mem_of_mem_getLast? (by rw [hg]; rfl :
    c'' ∈ ((cards.filter (fun c => !(foundFor c.name ap).isEmpty)).filter
      (fun c' => decide (c'.name = c.name))).getLast?)
  have hc''name : c''.name = c.name := by
    have := (List.mem_filter.1 hc''mem).2
    simpa using this
  have hminL : pyMinL (foundFor c''.name ap) = pyMin f rest := by
    rw [hc''name, hff]
    rfl
  refine ⟨mkBP c'' (pyMin f rest), ?_, rfl, rfl, ?_, ?_, ?_⟩
  · rw [analyze_without_bp_dlookup, hg, Option.map_some']
    rw [hminL]
  · intro p hp
    exact pyMin_le rest f p (hff ▸ hp)
  · obtain ⟨l₁, l₂, hdec, hlt⟩ := pyMin_first rest f
    exact ⟨l₁, l₂, by rw [hff, hdec], hlt⟩
  · rw [analyze_without_lines_getD]
    refine ⟨mkLine c.name c.quantity (pyMinL (foundFor c.name ap)), ?_, ?_, ?_⟩
    · apply List.mem_map_of_mem
      rw [List.mem_filter, List.mem_filter]
      refine ⟨⟨hc, hne⟩, by rw [hff]; simp [pyMinL]⟩
    · rfl
    · rw [hff]
      rfl

theorem claim_C4_witness :
    ((⟨1, "A", none, none⟩ : Card) ∈ [(⟨1, "A", none, none⟩ : Card)]) ∧
    (foundFor "A" [⟨"A", "A", .fin 3, "X", true, 1⟩, ⟨"A", "A", .fin 2, "Y", true, 1⟩] =
      [⟨"A", "A", .fin 3, "X", true, 1⟩, ⟨"A", "A", .fin 2, "Y", true, 1⟩]) ∧
    (∃ e, dlookup "A" (analyze_without_filtering
        [⟨"A", "A", .fin 3, "X", true, 1⟩, ⟨"A", "A", .fin 2, "Y", true, 1⟩]
        [⟨1, "A", none, none⟩]).best_prices = some e ∧
      e.best_price = (pyMin ⟨"A", "A", .fin 3, "X", true, 1⟩
        [⟨"A", "A", .fin 2, "Y", true, 1⟩]).price ∧
      e.website = (pyMin ⟨"A", "A", .fin 3, "X", true, 1⟩
        [⟨"A", "A", .fin 2, "Y", true, 1⟩]).website ∧
      (∀ p ∈ foundFor "A"
          [⟨"A", "A", .fin 3, "X", true, 1⟩, ⟨"A", "A", .fin 2, "Y", true, 1⟩],
        PVal.ble e.best_price p.price = true) ∧
      (∃ l₁ l₂, foundFor "A"
          [⟨"A", "A", .fin 3, "X", true, 1⟩, ⟨"A", "A", .fin 2, "Y", true, 1⟩] =
          l₁ ++ (pyMin ⟨"A", "A", .fin 3, "X", true, 1⟩
            [⟨"A", "A", .fin 2, "Y", true, 1⟩]) :: l₂ ∧
        ∀ p ∈ l₁, PVal.blt e.best_price p.price = true) ∧
      ∃ line ∈ (dlookup (pyMin ⟨"A", "A", .fin 3, "X", true, 1⟩
          [⟨"A", "A", .fin 2, "Y", true, 1⟩]).website
          (analyze_without_filtering
            [⟨"A", "A", .fin 3, "X", true, 1⟩, ⟨"A", "A", .fin 2, "Y", true, 1⟩]
            [⟨1, "A", none, none⟩]).buy_lists).getD [],
        line.card = "A" ∧ line.price_per_unit =
          (pyMin ⟨"A", "A", .fin 3, "X", true, 1⟩
            [⟨"A", "A", .fin 2, "Y", true, 1⟩]).price) :=
  ⟨by decide, by decide,
   claim_C4_theorem
     [⟨"A", "A", .fin 3, "X", true, 1⟩, ⟨"A", "A", .fin 2, "Y", true, 1⟩]
     [⟨1, "A", none, none⟩] ⟨1, "A", none, none⟩ (by decide)
     ⟨"A", "A", .fin 3, "X", true, 1⟩ [⟨"A", "A", .fin 2, "Y", true, 1⟩] (by decide)⟩

/-! ### Claim C6 -/

theorem line_invariant_without (ap : List CardPrice) (cards : List Card)
    (w : String) (l : List BuyListEntry)
    (hmem : (w, l) ∈ (analyze_without_filtering ap cards).buy_lists) :
    ∀ line ∈ l, line.total_price = line.price_per_unit.mulNat line.quantity := by
  have hlook := dlookup_of_mem_nodup (analyze_without_bl_keys_nodup ap cards) hmem
  have hgetD : l = (dlookup w (analyze_without_filtering ap cards).buy_lists).getD [] := by
    rw [hlook]
    rfl
  rw [analyze_without_lines_getD] at hgetD
  intro line hline
  rw [hgetD] at hline
  obtain ⟨c, _, hl⟩ := List.mem_map.1 hline
  rw [← hl]
  rfl

theorem line_invariant_with (cfg : VendorFilterConfig) (ap : List CardPrice)
    (cards : List Card) (w : String) (l : List BuyListEntry)
    (hmem : (w, l) ∈ (analyze_with_filtering cfg ap cards).buy_lists) :
    ∀ line ∈ l, line.total_price = line.price_per_unit.mulNat line.quantity := by
  have hlook := dlookup_of_mem_nodup (analyze_with_bl_keys_nodup cfg ap cards) hmem
  have hgetD : l =
      (dlookup w (analyze_with_filtering cfg ap cards).buy_lists).getD [] := by
    rw [hlook]
    rfl
  rw [analyze_with_lines_getD] at hgetD
  intro line hline
  rw [hgetD] at hline
  obtain ⟨na, _, hl⟩ := List.mem_map.1 hline
  rw [← hl]
  rfl

/-- C6: in both modes, every summary entry totals its vendor's buy-list
lines: the vendor total is `round2` applied once to the unrounded sum of the
line totals, the card count is the number of lines, and each line total is
the unrounded product of unit price and quantity needed. -/
theorem claim_C6_theorem (cfg : VendorFilterConfig) (ap : List CardPrice)
    (cards : List Card) (w : String) (s : SummaryEntry) :
    ((w, s) ∈ (analyze_without_filtering ap cards).summary →
      ∃ l, (w, l) ∈ (analyze_without_filtering ap cards).buy_lists ∧
        s.total_price = round2 (sumPrices (l.map (·.total_price))) ∧
        s.total_cards = l.length ∧
        ∀ line ∈ l, line.total_price = line.price_per_unit.mulNat line.quantity) ∧
    ((w, s) ∈ (analyze_with_filtering cfg ap cards).summary →
      ∃ l, (w, l) ∈ (analyze_with_filtering cfg ap cards).buy_lists ∧
        s.total_price = round2 (sumPrices (l.map (·.total_price))) ∧
        s.total_cards = l.length ∧
        ∀ line ∈ l, line.total_price = line.price_per_unit.mulNat line.quantity) := by
  constructor
  · intro hs
    rw [analyze_without_summary,
      mkSummary_eq _ (analyze_without_bl_keys_nodup ap cards)] at hs
    obtain ⟨wl, hwl, heq⟩ := List.mem_map.1 hs
    have hw : wl.1 = w := congrArg Prod.fst heq
    have hsv : (⟨wl.2.length, round2 (sumPrices (wl.2.map (·.total_price)))⟩ :
        SummaryEntry) = s := congrArg Prod.snd heq
    refine ⟨wl.2, ?_, ?_, ?_, ?_⟩
    · rw [← hw]
      exact hwl
    · rw [← hsv]
    · rw [← hsv]
    · exact line_invariant_without ap cards w wl.2 (by rw [← hw]; exact hwl)
  · intro hs
    rw [analyze_with_summary,
      mkSummary_eq _ (analyze_with_bl_keys_nodup cfg ap cards)] at hs
    obtain ⟨wl, hwl, heq⟩ := List.mem_map.1 hs
    have hw : wl.1 = w := congrArg Prod.fst heq
    have hsv : (⟨wl.2.length, round2 (sumPrices (wl.2.map (·.total_price)))⟩ :
        SummaryEntry) = s := congrArg Prod.snd heq
    refine ⟨wl.2, ?_, ?_, ?_, ?_⟩
    · rw [← hw]
      exact hwl
    · rw [← hsv]
    · rw [← hsv]
    · exact line_invariant_with cfg ap cards w wl.2 (by rw [← hw]; exact hwl)

theorem claim_C6_witness :
    (("X", (⟨1, round2 (sumPrices [PVal.mulNat (.fin (mkRat 3 2)) 2])⟩ : SummaryEntry)) ∈
        (analyze_without_filtering [⟨"A", "A", .fin (mkRat 3 2), "X", true, 4⟩]
          [⟨2, "A", none, none⟩]).summary) ∧
    (("X", (⟨1, round2 (sumPrices [PVal.mulNat (.fin (mkRat 3 2)) 2])⟩ : SummaryEntry)) ∈
        (analyze_with_filtering ⟨3, 5, true⟩
          [⟨"A", "A", .fin (mkRat 3 2), "X", true, 4⟩]
          [⟨2, "A", none, none⟩]).summary) ∧
    (∃ l, ("X", l) ∈ (analyze_without_filtering
          [⟨"A", "A", .fin (mkRat 3 2), "X", true, 4⟩]
          [⟨2, "A", none, none⟩]).buy_lists ∧
      (⟨1, round2 (sumPrices [PVal.mulNat (.fin (mkRat 3 2)) 2])⟩ :
          SummaryEntry).total_price = round2 (sumPrices (l.map (·.total_price))) ∧
      (⟨1, round2 (sumPrices [PVal.mulNat (.fin (mkRat 3 2)) 2])⟩ :
          SummaryEntry).total_cards = l.length ∧
      ∀ line ∈ l, line.total_price = line.price_per_unit.mulNat line.quantity) ∧
    (∃ l, ("X", l) ∈ (analyze_with_filtering ⟨3, 5, true⟩
          [⟨"A", "A", .fin (mkRat 3 2), "X", true, 4⟩]
          [⟨2, "A", none, none⟩]).buy_lists ∧
      (⟨1, round2 (sumPrices [PVal.mulNat (.fin (mkRat 3 2)) 2])⟩ :
          SummaryEntry).total_price = round2 (sumPrices (l.map (·.total_price))) ∧
      (⟨1, round2 (sumPrices [PVal.mulNat (.fin (mkRat 3 2)) 2])⟩ :
          SummaryEntry).total_cards = l.length ∧
      ∀ line ∈ l, line.total_price = line.price_per_unit.mulNat line.quantity) :=
  ⟨by decide, by decide,
   (claim_C6_theorem ⟨3, 5, true⟩ [⟨"A", "A", .fin (mkRat 3 2), "X", true, 4⟩]
     [⟨2, "A", none, none⟩] "X"
     ⟨1, round2 (sumPrices [PVal.mulNat (.fin (mkRat 3 2)) 2])⟩).1 (by decide),
   (claim_C6_theorem ⟨3, 5, true⟩ [⟨"A", "A", .fin (mkRat 3 2), "X", true, 4⟩]
     [⟨2, "A", none, none⟩] "X"
     ⟨1, round2 (sumPrices [PVal.mulNat (.fin (mkRat 3 2)) 2])⟩).2 (by decide)⟩

/-! ### Counting helpers for the coverage claims -/

/-- The number of `best_prices` entries carrying a given item name. -/
def bpCount (res : AnalysisResults) (name : String) : Nat :=
  res.best_prices.countP (fun kv => decide (kv.1 = name))

/-- The number of buy-list lines (across all vendors) carrying a given item
name. -/
def lineCount (res : AnalysisResults) (name : String) : Nat :=
  totalCountP (fun line => decide (line.card = name)) res.buy_lists

theorem countP_congr' {α : Type} (p q : α → Bool) :
    ∀ l : List α, (∀ x ∈ l, p x = q x) → l.countP p = l.countP q
  | [], _ => rfl
  | a :: l, h => by
    rw [List.countP_cons, List.countP_cons,
      countP_congr' p q l (fun x hx => h x (by simp [hx])), h a (by simp)]

theorem countP_key_eq_count {β : Type} (d : List (String × β)) (name : String) :
    d.countP (fun kv => decide (kv.1 = name)) = (dkeys d).count name := by
  simp [dkeys, List.count, List.countP_map]
  rfl

theorem mem_dkeys_iff_dlookup {β : Type} (d : List (String × β)) (name : String) :
    name ∈ dkeys d ↔ dlookup name d ≠ none := by
  constructor
  · intro h hn
    exact (dlookup_eq_none_iff name d).1 hn h
  · intro h
    by_contra hmem
    exact h ((dlookup_eq_none_iff name d).2 hmem)

theorem count_eq_one_of_nodup_mem {α : Type} [DecidableEq α] {l : List α} {a : α}
    (hn : l.Nodup) (hm : a ∈ l) : l.count a = 1 :=
  le_antisymm (List.nodup_iff_count_le_one.1 hn a) (List.count_pos_iff.2 hm)

theorem dlookup_mapG {β γ : Type} (w : String) (g : β → γ) (d : List (String × β)) :
    dlookup w (d.map (fun kv => (kv.1, g kv.2))) = (dlookup w d).map g := by
  induction d with
  | nil => simp [dlookup]
  | cons kv d ih =>
    obtain ⟨k', v'⟩ := kv
    by_cases hw : k' = w
    · subst hw
      simp [dlookup]
    · simp [dlookup, hw, ih]

theorem dlookup_initialAssignmentOf_eq (ap : List CardPrice) (cards : List Card)
    (n : String) :
    dlookup n (initialAssignmentOf ap cards) =
      (optionsFor ap cards n).map mkAssignment := by
  rw [initialAssignmentOf_eq]
  exact dlookup_mapG n mkAssignment (optionsAndNotFound ap cards).1

theorem dkeys_finalAssignmentOf (cfg : VendorFilterConfig) (ap : List CardPrice)
    (cards : List Card) :
    dkeys (finalAssignmentOf cfg ap cards) = dkeys (initialAssignmentOf ap cards) := by
  rw [finalAssignmentOf_eq]
  exact dkeys_mapG _ _

theorem dlookup_finalAssignmentOf_eq (cfg : VendorFilterConfig) (ap : List CardPrice)
    (cards : List Card) (n : String) :
    dlookup n (finalAssignmentOf cfg ap cards) =
      (dlookup n (initialAssignmentOf ap cards)).map
        (finalizeAssignment (vendorsToFilterOf cfg ap cards)
          (cardsWithPriceOverrideOf cfg ap cards) n) := by
  cases h : dlookup n (initialAssignmentOf ap cards) with
  | none =>
    rw [dlookup_eq_none_iff] at h
    have : dlookup n (finalAssignmentOf cfg ap cards) = none := by
      rw [dlookup_eq_none_iff, dkeys_finalAssignmentOf]
      exact h
    rw [this]
    rfl
  | some a =>
    rw [dlookup_finalAssignmentOf cfg (mem_of_dlookup h)]
    rfl

/-- In a dict with distinct keys, filtering on one key isolates at most the
entry that `dlookup` finds. -/
theorem filter_key_eq {β : Type} (name : String) :
    ∀ (d : List (String × β)), (dkeys d).Nodup →
      d.filter (fun kv => decide (kv.1 = name)) =
        (match dlookup name d with
         | some v => [(name, v)]
         | none => [])
  | [], _ => rfl
  | (k', v') :: d, hn => by
    have hn' := List.nodup_cons.1 (by simpa [dkeys_cons] using hn)
    by_cases hk : k' = name
    · subst hk
      rw [List.filter_cons_of_pos (by simp)]
      have hrest : d.filter (fun kv => decide (kv.1 = k')) = [] := by
        rw [List.filter_eq_nil_iff]
        rintro ⟨k'', v''⟩ hmem
        simp only [decide_eq_true_eq]
        rintro rfl
        exact hn'.1 (by simpa [dkeys] using List.mem_map_of_mem Prod.fst hmem)
      rw [hrest]
      simp [dlookup]
    · rw [List.filter_cons_of_neg (by simp [hk])]
      rw [filter_key_eq name d hn'.2]
      simp [dlookup, hk]

theorem finalizeAssignment_card (vtf ovr : List String) (n : String) (a : Assignment) :
    (finalizeAssignment vtf ovr n a).card = a.card := by
  unfold finalizeAssignment
  split
  · rfl
  · split <;> rfl

theorem mkAssignment_card (cps : Card × List CardPrice) :
    (mkAssignment cps).card = cps.1 := by
  unfold mkAssignment
  split <;> rfl

/-! ### Claim C9 -/

theorem lineCount_without_eq (ap : List CardPrice) (cards : List Card) (name : String) :
    lineCount (analyze_without_filtering ap cards) name =
      ((cards.filter (fun c => !(foundFor c.name ap).isEmpty)).filter
        (fun c => decide (c.name = name))).length := by
  unfold lineCount
  rw [analyze_without_totalCount]
  rw [countP_congr'
    (fun c : Card =>
      decide ((mkLine c.name c.quantity (pyMinL (foundFor c.name ap))).card = name))
    (fun c : Card => decide (c.name = name))
    (cards.filter (fun c => !(foundFor c.name ap).isEmpty)) (fun x _ => rfl)]
  rw [List.countP_eq_length_filter]

theorem lineCount_with_eq (cfg : VendorFilterConfig) (ap : List CardPrice)
    (cards : List Card) (name : String) :
    lineCount (analyze_with_filtering cfg ap cards) name =
      (dkeys (finalAssignmentOf cfg ap cards)).count name := by
  unfold lineCount
  rw [analyze_with_totalCount]
  rw [countP_congr'
    (fun na : String × Assignment =>
      decide ((mkLine na.1 na.2.card.quantity na.2.price_info).card = name))
    (fun na : String × Assignment => decide (na.1 = name))
    (finalAssignmentOf cfg ap cards) (fun x _ => rfl)]
  rw [countP_key_eq_count]

/-- C9: with duplicate requested names, filtered mode keeps at most one
`best_prices` entry and at most one buy-list line per name — the surviving
entry's quantity is the quantity of the **last** requested item with that
name — while unfiltered mode emits one buy-list line per duplicate (the
length of the duplicate list) yet still at most one `best_prices` entry. -/
theorem claim_C9_theorem (cfg : VendorFilterConfig) (ap : List CardPrice)
    (cards : List Card) (name : String) :
    bpCount (analyze_with_filtering cfg ap cards) name ≤ 1 ∧
    lineCount (analyze_with_filtering cfg ap cards) name ≤ 1 ∧
    bpCount (analyze_without_filtering ap cards) name ≤ 1 ∧
    lineCount (analyze_without_filtering ap cards) name =
      ((cards.filter (fun c => !(foundFor c.name ap).isEmpty)).filter
        (fun c => decide (c.name = name))).length ∧
    (∀ e, dlookup name (analyze_with_filtering cfg ap cards).best_prices = some e →
      ∃ c, ((cards.filter (fun c => !(foundFor c.name ap).isEmpty)).filter
          (fun c' => decide (c'.name = name))).getLast? = some c ∧
        e.quantity_needed = c.quantity) := by
  refine ⟨?_, ?_, ?_, ?_, ?_⟩
  · exact countP_key_le_one (analyze_with_bp_keys_nodup cfg ap cards) name
  · rw [lineCount_with_eq]
    exact List.nodup_iff_count_le_one.1 (final_keys_nodup cfg ap cards) name
  · exact countP_key_le_one (analyze_without_bp_keys_nodup ap cards) name
  · exact lineCount_without_eq ap cards name
  · intro e he
    rw [analyze_with_bp_dlookup,
      filter_key_eq name _ (final_keys_nodup cfg ap cards)] at he
    cases hfl : dlookup name (finalAssignmentOf cfg ap cards) with
    | none =>
      rw [hfl] at he
      exact absurd he (by simp)
    | some a' =>
      rw [hfl] at he
      simp only [List.getLast?_singleton, Option.map_some'] at he
      have he' : e = mkBP a'.card a'.price_info := (Option.some.inj he).symm
      rw [dlookup_finalAssignmentOf_eq] at hfl
      cases hini : dlookup name (initialAssignmentOf ap cards) with
      | none =>
        rw [hini] at hfl
        exact absurd hfl (by simp)
      | some a =>
        rw [hini] at hfl
        have ha' : a' = finalizeAssignment (vendorsToFilterOf cfg ap cards)
            (cardsWithPriceOverrideOf cfg ap cards) name a :=
          (Option.some.inj hfl).symm
        rw [dlookup_initialAssignmentOf_eq] at hini
        cases hopt : optionsFor ap cards name with
        | none =>
          rw [hopt] at hini
          exact absurd hini (by simp)
        | some cps =>
          rw [hopt] at hini
          have ha : a = mkAssignment cps := (Option.some.inj hini).symm
          rw [optionsFor_eq] at hopt
          cases hlast : ((cards.filter (fun c => !(foundFor c.name ap).isEmpty)).filter
              (fun c' => decide (c'.name = name))).getLast? with
          | none =>
            rw [hlast] at hopt
            exact absurd hopt (by simp)
          | some c =>
            rw [hlast] at hopt
            simp only [Option.map_some'] at hopt
            have hcps : cps = (c, sortByPrice (foundFor c.name ap)) :=
              (Option.some.inj hopt).symm
            refine ⟨c, rfl, ?_⟩
            rw [he']
            show a'.card.quantity = c.quantity
            rw [ha', finalizeAssignment_card, ha, mkAssignment_card, hcps]

theorem claim_C9_witness :
    bpCount (analyze_with_filtering ⟨1, 5, true⟩ [⟨"A", "A", .fin 1, "X", true, 1⟩]
      [⟨1, "A", none, none⟩, ⟨2, "A", none, none⟩]) "A" ≤ 1 ∧
    lineCount (analyze_with_filtering ⟨1, 5, true⟩ [⟨"A", "A", .fin 1, "X", true, 1⟩]
      [⟨1, "A", none, none⟩, ⟨2, "A", none, none⟩]) "A" ≤ 1 ∧
    bpCount (analyze_without_filtering [⟨"A", "A", .fin 1, "X", true, 1⟩]
      [⟨1, "A", none, none⟩, ⟨2, "A", none, none⟩]) "A" ≤ 1 ∧
    lineCount (analyze_without_filtering [⟨"A", "A", .fin 1, "X", true, 1⟩]
      [⟨1, "A", none, none⟩, ⟨2, "A", none, none⟩]) "A" =
      (([⟨1, "A", none, none⟩, ⟨2, "A", none, none⟩].filter
          (fun c : Card => !(foundFor c.name [⟨"A", "A", .fin 1, "X", true, 1⟩]).isEmpty)).filter
        (fun c : Card => decide (c.name = "A"))).length ∧
    (∃ c, (([⟨1, "A", none, none⟩, ⟨2, "A", none, none⟩].filter
          (fun c : Card => !(foundFor c.name [⟨"A", "A", .fin 1, "X", true, 1⟩]).isEmpty)).filter
        (fun c' : Card => decide (c'.name = "A"))).getLast? = some c ∧
      (⟨2, .fin 1, "X", 1⟩ : BestPriceEntry).quantity_needed = c.quantity) :=
  (fun h => ⟨h.1, h.2.1, h.2.2.1, h.2.2.2.1, h.2.2.2.2 ⟨2, .fin 1, "X", 1⟩ (by decide)⟩)
    (claim_C9_theorem ⟨1, 5, true⟩ [⟨"A", "A", .fin 1, "X", true, 1⟩]
      [⟨1, "A", none, none⟩, ⟨2, "A", none, none⟩] "A")

/-! ### Claim C5 -/

theorem double_filter_eq (ap : List CardPrice) :
    ∀ {cards : List Card}, (cards.map Card.name).Nodup →
      ∀ {c : Card}, c ∈ cards →
      (cards.filter (fun c' => !(foundFor c'.name ap).isEmpty)).filter
        (fun c' => decide (c'.name = c.name)) =
        (if (foundFor c.name ap).isEmpty then [] else [c])
  | [], _, c, hc => by simp at hc
  | a :: rest, hnd, c, hc => by
    have hnd1 : ∀ x ∈ rest, x.name ≠ a.name := by
      intro x hx hxa
      rw [List.map_cons, List.nodup_cons] at hnd
      exact hnd.1 (hxa ▸ List.mem_map_of_mem Card.name hx)
    have hnd2 : (rest.map Card.name).Nodup := by
      rw [List.map_cons, List.nodup_cons] at hnd
      exact hnd.2
    rw [List.filter_filter]
    by_cases ha : a.name = c.name
    · have hca : c = a := by
        rcases List.mem_cons.1 hc with h | h
        · exact h
        · exact absurd ha.symm (hnd1 c h)
      subst hca
      have hrest : rest.filter
          (fun c' => decide (c'.name = c.name) && !(foundFor c'.name ap).isEmpty) = [] := by
        rw [List.filter_eq_nil_iff]
        intro x hx
        simp only [Bool.and_eq_true, decide_eq_true_eq, not_and]
        intro hxname
        exact absurd hxname (hnd1 x hx)
      by_cases hemp : (foundFor c.name ap).isEmpty
      · rw [List.filter_cons_of_neg (by simp [hemp]), if_pos hemp]
        rw [show (fun c' : Card => decide (c'.name = c.name) &&
            !(foundFor c'.name ap).isEmpty) =
          (fun c' => decide (c'.name = c.name) && !(foundFor c'.name ap).isEmpty)
          from rfl] at hrest
        exact hrest
      · rw [List.filter_cons_of_pos (by simp [hemp]), if_neg hemp, hrest]
    · have hc' : c ∈ rest := by
        rcases List.mem_cons.1 hc with h | h
        · exact absurd (h ▸ rfl) ha
        · exact h
      rw [List.filter_cons_of_neg (by simp [ha])]
      have := double_filter_eq ap hnd2 hc'
      rw [List.filter_filter] at this
      exact this

/-- C5, as stated, fails on duplicate requested names: with the item `A`
requested twice and one found observation, unfiltered mode emits **two**
buy-list lines for `A`, not exactly one. -/
theorem claim_C5_counterexample :
    (foundFor "A" [⟨"A", "A", .fin 1, "X", true, 1⟩] ≠ []) ∧
    lineCount (analyze_without_filtering [⟨"A", "A", .fin 1, "X", true, 1⟩]
      [⟨1, "A", none, none⟩, ⟨1, "A", none, none⟩]) "A" = 2 := by
  decide

/-- C5 (amended): provided the requested names are pairwise distinct, in both
modes every requested item with at least one found observation appears in
exactly one buy-list line and exactly one `best_prices` entry and not in
`not_found`, every item with no found observation appears in `not_found` (by
name, in input order: `not_found` is exactly the names of the no-found items
in request order) and nowhere else, and the two sets partition the input. -/
theorem claim_C5_theorem (cfg : VendorFilterConfig) (ap : List CardPrice)
    (cards : List Card) (hnd : (cards.map Card.name).Nodup) :
    ((analyze_without_filtering ap cards).not_found =
      (cards.filter (fun c => (foundFor c.name ap).isEmpty)).map (·.name)) ∧
    ((analyze_with_filtering cfg ap cards).not_found =
      (cards.filter (fun c => (foundFor c.name ap).isEmpty)).map (·.name)) ∧
    ∀ c ∈ cards,
      (foundFor c.name ap ≠ [] →
        lineCount (analyze_without_filtering ap cards) c.name = 1 ∧
        bpCount (analyze_without_filtering ap cards) c.name = 1 ∧
        lineCount (analyze_with_filtering cfg ap cards) c.name = 1 ∧
        bpCount (analyze_with_filtering cfg ap cards) c.name = 1 ∧
        c.name ∉ (analyze_without_filtering ap cards).not_found ∧
        c.name ∉ (analyze_with_filtering cfg ap cards).not_found) ∧
      (foundFor c.name ap = [] →
        c.name ∈ (analyze_without_filtering ap cards).not_found ∧
        c.name ∈ (analyze_with_filtering cfg ap cards).not_found ∧
        lineCount (analyze_without_filtering ap cards) c.name = 0 ∧
        bpCount (analyze_without_filtering ap cards) c.name = 0 ∧
        lineCount (analyze_with_filtering cfg ap cards) c.name = 0 ∧
        bpCount (analyze_with_filtering cfg ap cards) c.name = 0) := by
  refine ⟨analyze_without_not_found ap cards, analyze_with_not_found cfg ap cards, ?_⟩
  intro c hc
  have hnf_mem : ∀ (res_nf : List String), res_nf =
      (cards.filter (fun c' => (foundFor c'.name ap).isEmpty)).map (·.name) →
      (c.name ∈ res_nf ↔ (foundFor c.name ap).isEmpty) := by
    intro res_nf hres
    rw [hres]
    constructor
    · intro hmem
      obtain ⟨c', hc', hname⟩ := List.mem_map.1 hmem
      have hc'2 := List.mem_filter.1 hc'
      rw [← hname]
      simpa using hc'2.2
    · intro hemp
      exact List.mem_map_of_mem _ (List.mem_filter.2 ⟨hc, by simpa using hemp⟩)
  constructor
  · intro hfound
    have hemp : (foundFor c.name ap).isEmpty = false := by
      rw [List.isEmpty_eq_false]
      exact hfound
    have hdouble : (cards.filter (fun c' => !(foundFor c'.name ap).isEmpty)).filter
        (fun c' => decide (c'.name = c.name)) = [c] := by
      rw [double_filter_eq ap hnd hc, if_neg (by simp [hemp])]
    have hoptsome : optionsFor ap cards c.name =
        some (c, sortByPrice (foundFor c.name ap)) := by
      rw [optionsFor_eq, hdouble]
      rfl
    have hinisome : dlookup c.name (initialAssignmentOf ap cards) =
        some (mkAssignment (c, sortByPrice (foundFor c.name ap))) := by
      rw [dlookup_initialAssignmentOf_eq, hoptsome]
      rfl
    have hfinsome : dlookup c.name (finalAssignmentOf cfg ap cards) =
        some (finalizeAssignment (vendorsToFilterOf cfg ap cards)
          (cardsWithPriceOverrideOf cfg ap cards) c.name
          (mkAssignment (c, sortByPrice (foundFor c.name ap)))) := by
      rw [dlookup_finalAssignmentOf_eq, hinisome]
      rfl
    refine ⟨?_, ?_, ?_, ?_, ?_, ?_⟩
    · rw [lineCount_without_eq, hdouble]
      rfl
    · unfold bpCount
      refine le_antisymm (countP_key_le_one (analyze_without_bp_keys_nodup ap cards) _) ?_
      have hbp : dlookup c.name (analyze_without_filtering ap cards).best_prices =
          some (mkBP c (pyMinL (foundFor c.name ap))) := by
        rw [analyze_without_bp_dlookup, hdouble]
        rfl
      exact List.countP_pos_iff.2 ⟨_, mem_of_dlookup hbp, by simp⟩
    · rw [lineCount_with_eq]
      apply count_eq_one_of_nodup_mem (final_keys_nodup cfg ap cards)
      rw [mem_dkeys_iff_dlookup, hfinsome]
      simp
    · unfold bpCount
      refine le_antisymm (countP_key_le_one (analyze_with_bp_keys_nodup cfg ap cards) _) ?_
      have hbp : (dlookup c.name (analyze_with_filtering cfg ap cards).best_prices).isSome := by
        rw [analyze_with_bp_dlookup,
          filter_key_eq c.name _ (final_keys_nodup cfg ap cards), hfinsome]
        rfl
      obtain ⟨e, he⟩ := Option.isSome_iff_exists.1 hbp
      exact List.countP_pos_iff.2 ⟨_, mem_of_dlookup he, by simp⟩
    · intro hmem
      have h1 := (hnf_mem _ (analyze_without_not_found ap cards)).1 hmem
      rw [hemp] at h1
      exact Bool.noConfusion h1
    · intro hmem
      have h1 := (hnf_mem _ (analyze_with_not_found cfg ap cards)).1 hmem
      rw [hemp] at h1
      exact Bool.noConfusion h1
  · intro hfound
    have hemp : (foundFor c.name ap).isEmpty = true := by
      rw [List.isEmpty_iff]
      exact hfound
    have hdouble : (cards.filter (fun c' => !(foundFor c'.name ap).isEmpty)).filter
        (fun c' => decide (c'.name = c.name)) = [] := by
      rw [double_filter_eq ap hnd hc, if_pos hemp]
    have hoptnone : optionsFor ap cards c.name = none := by
      rw [optionsFor_eq, hdouble]
      rfl
    have hininone : dlookup c.name (initialAssignmentOf ap cards) = none := by
      rw [dlookup_initialAssignmentOf_eq, hoptnone]
      rfl
    have hfinnone : dlookup c.name (finalAssignmentOf cfg ap cards) = none := by
      rw [dlookup_finalAssignmentOf_eq, hininone]
      rfl
    refine ⟨?_, ?_, ?_, ?_, ?_, ?_⟩
    · exact (hnf_mem _ (analyze_without_not_found ap cards)).2 hemp
    · exact (hnf_mem _ (analyze_with_not_found cfg ap cards)).2 hemp
    · rw [lineCount_without_eq, hdouble]
      rfl
    · unfold bpCount
      rw [countP_key_eq_count]
      apply List.count_eq_zero_of_not_mem
      rw [mem_dkeys_iff_dlookup]
      intro hne
      apply hne
      rw [analyze_without_bp_dlookup, hdouble]
      rfl
    · rw [lineCount_with_eq]
      apply List.count_eq_zero_of_not_mem
      rw [mem_dkeys_iff_dlookup]
      intro hne
      exact hne hfinnone
    · unfold bpCount
      rw [countP_key_eq_count]
      apply List.count_eq_zero_of_not_mem
      rw [mem_dkeys_iff_dlookup]
      intro hne
      apply hne
      rw [analyze_with_bp_dlookup,
        filter_key_eq c.name _ (final_keys_nodup cfg ap cards), hfinnone]
      rfl

theorem claim_C5_witness :
    (([⟨1, "A", none, none⟩, ⟨1, "B", none, none⟩].map Card.name).Nodup) ∧
    (lineCount (analyze_without_filtering [⟨"A", "A", .fin 1, "X", true, 1⟩]
        [⟨1, "A", none, none⟩, ⟨1, "B", none, none⟩]) "A" = 1 ∧
     bpCount (analyze_without_filtering [⟨"A", "A", .fin 1, "X", true, 1⟩]
        [⟨1, "A", none, none⟩, ⟨1, "B", none, none⟩]) "A" = 1 ∧
     lineCount (analyze_with_filtering ⟨1, 5, true⟩ [⟨"A", "A", .fin 1, "X", true, 1⟩]
        [⟨1, "A", none, none⟩, ⟨1, "B", none, none⟩]) "A" = 1 ∧
     bpCount (analyze_with_filtering ⟨1, 5, true⟩ [⟨"A", "A", .fin 1, "X", true, 1⟩]
        [⟨1, "A", none, none⟩, ⟨1, "B", none, none⟩]) "A" = 1 ∧
     "A" ∉ (analyze_without_filtering [⟨"A", "A", .fin 1, "X", true, 1⟩]
        [⟨1, "A", none, none⟩, ⟨1, "B", none, none⟩]).not_found ∧
     "A" ∉ (analyze_with_filtering ⟨1, 5, true⟩ [⟨"A", "A", .fin 1, "X", true, 1⟩]
        [⟨1, "A", none, none⟩, ⟨1, "B", none, none⟩]).not_found) ∧
    ("B" ∈ (analyze_without_filtering [⟨"A", "A", .fin 1, "X", true, 1⟩]
        [⟨1, "A", none, none⟩, ⟨1, "B", none, none⟩]).not_found ∧
     "B" ∈ (analyze_with_filtering ⟨1, 5, true⟩ [⟨"A", "A", .fin 1, "X", true, 1⟩]
        [⟨1, "A", none, none⟩, ⟨1, "B", none, none⟩]).not_found ∧
     lineCount (analyze_without_filtering [⟨"A", "A", .fin 1, "X", true, 1⟩]
        [⟨1, "A", none, none⟩, ⟨1, "B", none, none⟩]) "B" = 0 ∧
     bpCount (analyze_without_filtering [⟨"A", "A", .fin 1, "X", true, 1⟩]
        [⟨1, "A", none, none⟩, ⟨1, "B", none, none⟩]) "B" = 0 ∧
     lineCount (analyze_with_filtering ⟨1, 5, true⟩ [⟨"A", "A", .fin 1, "X", true, 1⟩]
        [⟨1, "A", none, none⟩, ⟨1, "B", none, none⟩]) "B" = 0 ∧
     bpCount (analyze_with_filtering ⟨1, 5, true⟩ [⟨"A", "A", .fin 1, "X", true, 1⟩]
        [⟨1, "A", none, none⟩, ⟨1, "B", none, none⟩]) "B" = 0) :=
  ⟨by decide,
   (((claim_C5_theorem ⟨1, 5, true⟩ [⟨"A", "A", .fin 1, "X", true, 1⟩]
      [⟨1, "A", none, none⟩, ⟨1, "B", none, none⟩] (by decide)).2.2
      ⟨1, "A", none, none⟩ (by decide)).1 (by decide)),
   (((claim_C5_theorem ⟨1, 5, true⟩ [⟨"A", "A", .fin 1, "X", true, 1⟩]
      [⟨1, "A", none, none⟩, ⟨1, "B", none, none⟩] (by decide)).2.2
      ⟨1, "B", none, none⟩ (by decide)).2 (by decide))⟩

/-! ### Claim C1 -/

theorem countP_le_countP_map {α β : Type} (p : α → Bool) (q : β → Bool) (f : α → β)
    (l : List α) (h : ∀ x ∈ l, p x = true → q (f x) = true) :
    l.countP p ≤ (l.map f).countP q := by
  rw [List.countP_map]
  exact List.countP_mono_left h

/-- The observations of the C1 counterexample: `A` at `X` ($1) and `Y` ($2),
`B` and `C` only at `Z` ($1 each). -/
def c1ap : List CardPrice :=
  [⟨"A", "A", .fin 1, "X", true, 1⟩, ⟨"A", "A", .fin 2, "Y", true, 1⟩,
   ⟨"B", "B", .fin 1, "Z", true, 1⟩, ⟨"C", "C", .fin 1, "Z", true, 1⟩]

/-- The requested items of the C1 counterexample. -/
def c1cards : List Card :=
  [⟨1, "A", none, none⟩, ⟨1, "B", none, none⟩, ⟨1, "C", none, none⟩]

/-- C1, as stated, is false: the redistribution is single-pass, so a
reassigned item can land on a vendor that itself ends up under the
threshold. With `min_cards_per_vendor = 2`, item `A` offered at `X` ($1)
and `Y` ($2) and items `B`, `C` both at `Z`, vendor `X` (one tentative
item) is filtered; `A`'s price gap ($1) is below the $5 override, so `A`
moves to its rank-1 vendor `Y` — and `Y` appears in the final buy lists
with a single line for `A`, below the threshold, although `A` is not
override-kept and has an alternative vendor (`X`) offering it. -/
theorem claim_C1_counterexample :
    ((dlookup "Y" (analyze_with_filtering ⟨2, 5, true⟩ c1ap c1cards).buy_lists).getD
        []).map BuyListEntry.card = ["A"] ∧
    ((((dlookup "Y" (analyze_with_filtering ⟨2, 5, true⟩ c1ap c1cards).buy_lists).getD
        []).length : Int) < (⟨2, 5, true⟩ : VendorFilterConfig).min_cards_per_vendor) ∧
    "A" ∉ cardsWithPriceOverrideOf ⟨2, 5, true⟩ c1ap c1cards ∧
    sortByPrice (foundFor "A" c1ap) =
      [⟨"A", "A", .fin 1, "X", true, 1⟩, ⟨"A", "A", .fin 2, "Y", true, 1⟩] ∧
    PVal.subGe (.fin 2) (.fin 1)
      (⟨2, 5, true⟩ : VendorFilterConfig).min_price_difference_override = false := by
  decide

/-- C1 (amended): in filtered mode, when a vendor's final buy list has fewer
than `min_cards_per_vendor` lines, every line of that list is for an item
that is override-kept, or has fewer than two options (no alternative), or
was reassigned to its rank-1 option away from an under-threshold vendor —
the single-pass redistribution never re-checks the receiving vendor. -/
theorem claim_C1_theorem (cfg : VendorFilterConfig) (ap : List CardPrice)
    (cards : List Card) (w : String)
    (hlt : ((((dlookup w (analyze_with_filtering cfg ap cards).buy_lists).getD
        []).length : Int) < cfg.min_cards_per_vendor)) :
    ∀ e ∈ (dlookup w (analyze_with_filtering cfg ap cards).buy_lists).getD [],
      e.card ∈ cardsWithPriceOverrideOf cfg ap cards ∨
      (∃ a, dlookup e.card (initialAssignmentOf ap cards) = some a ∧
        a.all_prices.length ≤ 1) ∨
      (∃ a p1 rest, dlookup e.card (initialAssignmentOf ap cards) = some a ∧
        a.price_info.website ∈ vendorsToFilterOf cfg ap cards ∧
        a.all_prices = a.price_info :: p1 :: rest ∧
        p1.website = w ∧ e.price_per_unit = p1.price) := by
  intro e he
  rw [analyze_with_lines_getD] at he
  simp only [List.mem_map] at he
  obtain ⟨na, hnaf, rfl⟩ := he
  have hna := List.mem_filter.1 hnaf
  have hweb : na.2.price_info.website = w := by simpa using hna.2
  have hmem1 := hna.1
  rw [finalAssignmentOf_eq] at hmem1
  simp only [List.mem_map] at hmem1
  obtain ⟨⟨n, a⟩, hma, heq⟩ := hmem1
  have h1' : na.1 = n := (congrArg Prod.fst heq).symm
  have h2' : na.2 = finalizeAssignment (vendorsToFilterOf cfg ap cards)
      (cardsWithPriceOverrideOf cfg ap cards) n a := (congrArg Prod.snd heq).symm
  have hdl : dlookup n (initialAssignmentOf ap cards) = some a :=
    dlookup_initialAssignmentOf hma
  have hcard : (mkLine na.1 na.2.card.quantity na.2.price_info).card = na.1 := rfl
  have hpu : (mkLine na.1 na.2.card.quantity na.2.price_info).price_per_unit =
      na.2.price_info.price := rfl
  rw [hcard, hpu, h1', h2']
  rw [h2'] at hweb
  by_cases hb : (!((vendorsToFilterOf cfg ap cards).contains a.price_info.website) ||
      (cardsWithPriceOverrideOf cfg ap cards).contains n) = true
  · have hfa : finalizeAssignment (vendorsToFilterOf cfg ap cards)
        (cardsWithPriceOverrideOf cfg ap cards) n a = a := by
      unfold finalizeAssignment
      rw [if_pos hb]
    by_cases hov : (cardsWithPriceOverrideOf cfg ap cards).contains n = true
    · exact Or.inl (contains_eq_true_iff.1 hov)
    · exfalso
      have hovf : (cardsWithPriceOverrideOf cfg ap cards).contains n = false :=
        Bool.eq_false_iff.2 hov
      have hnw : (vendorsToFilterOf cfg ap cards).contains a.price_info.website =
          false := by
        rw [hovf, Bool.or_false, Bool.not_eq_true'] at hb
        exact hb
      rw [hfa] at hweb
      have hnwW : (vendorsToFilterOf cfg ap cards).contains w = false := hweb ▸ hnw
      have hwnotin : w ∉ vendorsToFilterOf cfg ap cards := by
        rw [← contains_eq_true_iff, hnwW]
        exact Bool.false_ne_true
      have hmemf : (n, a) ∈ (initialAssignmentOf ap cards).filter
          (fun x => decide (x.2.price_info.website = w)) :=
        List.mem_filter.2 ⟨hma, by simp [hweb]⟩
      have hvcg := vendorCards_getD (initialAssignmentOf ap cards) w
      cases hvl : dlookup w (vendorCards (initialAssignmentOf ap cards)) with
      | none =>
        rw [hvl, Option.getD_none] at hvcg
        have hmm := List.mem_map_of_mem Prod.fst hmemf
        rw [← hvcg] at hmm
        exact absurd hmm (List.not_mem_nil _)
      | some l =>
        rw [hvl, Option.getD_some] at hvcg
        have hlen : ¬ ((l.length : Int) < cfg.min_cards_per_vendor) := fun hcontra =>
          hwnotin ((mem_vendorsToFilter_iff cfg _
            (vendorCards_keys_nodup (initialAssignmentOf ap cards)) w).2
            ⟨l, hvl, hcontra⟩)
        apply hlen
        have hl1 : l.length = ((initialAssignmentOf ap cards).filter
            (fun x => decide (x.2.price_info.website = w))).length := by
          rw [hvcg, List.length_map]
        have hcle : ((initialAssignmentOf ap cards).filter
              (fun x => decide (x.2.price_info.website = w))).length ≤
            ((finalAssignmentOf cfg ap cards).filter
              (fun x => decide (x.2.price_info.website = w))).length := by
          rw [← List.countP_eq_length_filter, ← List.countP_eq_length_filter,
            finalAssignmentOf_eq]
          apply countP_le_countP_map
          intro x hx hpx
          have hpx' : x.2.price_info.website = w := by simpa using hpx
          have hxfa : finalizeAssignment (vendorsToFilterOf cfg ap cards)
              (cardsWithPriceOverrideOf cfg ap cards) x.1 x.2 = x.2 := by
            unfold finalizeAssignment
            rw [if_pos (by rw [hpx', hnwW]; rfl)]
          simp [hxfa, hpx']
        rw [analyze_with_lines_getD, List.length_map] at hlt
        rw [hl1]
        exact lt_of_le_of_lt (by exact_mod_cast hcle) hlt
  · have hcond : (!((vendorsToFilterOf cfg ap cards).contains a.price_info.website) ||
        (cardsWithPriceOverrideOf cfg ap cards).contains n) = false :=
      Bool.eq_false_iff.2 hb
    rw [Bool.or_eq_false_iff, Bool.not_eq_false'] at hcond
    have hvtfmem : a.price_info.website ∈ vendorsToFilterOf cfg ap cards :=
      contains_eq_true_iff.1 hcond.1
    have hopt := (dlookup_initialAssignmentOf_eq ap cards n).symm.trans hdl
    cases hcps : optionsFor ap cards n with
    | none =>
      rw [hcps] at hopt
      exact absurd hopt (by simp)
    | some cps =>
      rw [hcps, Option.map_some'] at hopt
      have ha : mkAssignment cps = a := Option.some.inj hopt
      obtain ⟨c, ps⟩ := cps
      cases ps with
      | nil =>
        refine Or.inr (Or.inl ⟨a, hdl, ?_⟩)
        have hap : a.all_prices = [] := by
          rw [← ha]
          rfl
        rw [hap]
        exact Nat.zero_le 1
      | cons p0 tl =>
        cases tl with
        | nil =>
          refine Or.inr (Or.inl ⟨a, hdl, ?_⟩)
          have hap : a.all_prices = [p0] := by
            rw [← ha]
            rfl
          rw [hap]
          exact Nat.le_refl 1
        | cons p1 tl' =>
          have hstruct : a = ⟨c, p0, p0 :: p1 :: tl'⟩ := by
            rw [← ha]
            rfl
          subst hstruct
          have hfa : finalizeAssignment (vendorsToFilterOf cfg ap cards)
              (cardsWithPriceOverrideOf cfg ap cards) n
              (⟨c, p0, p0 :: p1 :: tl'⟩ : Assignment) = ⟨c, p1, p0 :: p1 :: tl'⟩ := by
            unfold finalizeAssignment
            rw [if_neg hb]
          have hpw : p1.website = w := by
            rw [hfa] at hweb
            exact hweb
          refine Or.inr (Or.inr
            ⟨⟨c, p0, p0 :: p1 :: tl'⟩, p1, tl', hdl, hvtfmem, rfl, hpw, ?_⟩)
          rw [hfa]

theorem claim_C1_witness :
    ((((dlookup "Y" (analyze_with_filtering ⟨2, 5, true⟩ c1ap c1cards).buy_lists).getD
        []).length : Int) < (⟨2, 5, true⟩ : VendorFilterConfig).min_cards_per_vendor) ∧
    ((⟨"A", 1, .fin 2, .fin 2⟩ : BuyListEntry) ∈
      (dlookup "Y" (analyze_with_filtering ⟨2, 5, true⟩ c1ap c1cards).buy_lists).getD
        []) ∧
    ((⟨"A", 1, .fin 2, .fin 2⟩ : BuyListEntry).card ∈
        cardsWithPriceOverrideOf ⟨2, 5, true⟩ c1ap c1cards ∨
      (∃ a, dlookup (⟨"A", 1, .fin 2, .fin 2⟩ : BuyListEntry).card
          (initialAssignmentOf c1ap c1cards) = some a ∧ a.all_prices.length ≤ 1) ∨
      (∃ a p1 rest, dlookup (⟨"A", 1, .fin 2, .fin 2⟩ : BuyListEntry).card
          (initialAssignmentOf c1ap c1cards) = some a ∧
        a.price_info.website ∈ vendorsToFilterOf ⟨2, 5, true⟩ c1ap c1cards ∧
        a.all_prices = a.price_info :: p1 :: rest ∧
        p1.website = "Y" ∧
        (⟨"A", 1, .fin 2, .fin 2⟩ : BuyListEntry).price_per_unit = p1.price)) :=
  ⟨by decide, by decide,
   claim_C1_theorem ⟨2, 5, true⟩ c1ap c1cards "Y" (by decide)
     ⟨"A", 1, .fin 2, .fin 2⟩ (by decide)⟩

/-! ### Claim C2 -/

instance : DecidableRel priceNe := fun a b => by
  unfold priceNe
  infer_instance

theorem foldl_congr' {α β : Type} (f g : β → α → β) :
    ∀ (l : List α), (∀ a ∈ l, ∀ b, f b a = g b a) → ∀ (b : β), l.foldl f b = l.foldl g b
  | [], _, _ => rfl
  | a :: l, h, b => by
    simp only [List.foldl_cons]
    rw [h a (by simp) b]
    exact foldl_congr' f g l (fun x hx b => h x (by simp [hx]) b) _

theorem perm_isEmpty_eq {α : Type} {l₁ l₂ : List α} (h : l₁.Perm l₂) :
    l₁.isEmpty = l₂.isEmpty := by
  cases l₁ with
  | nil => rw [h.nil_eq]
  | cons a t =>
    cases l₂ with
    | nil => simpa using h.length_eq
    | cons b t₂ => rfl

theorem foundFor_perm {ap₁ ap₂ : List CardPrice} (h : ap₁.Perm ap₂) (name : String) :
    (foundFor name ap₁).Perm (foundFor name ap₂) := by
  unfold foundFor
  exact (h.filter _).filter _

/-- The unfiltered pipeline depends on the observation list only through
each requested card's found-observation emptiness and Python-min. -/
theorem analyze_without_congr (ap₁ ap₂ : List CardPrice) (cards : List Card)
    (hie : ∀ c ∈ cards, (foundFor c.name ap₁).isEmpty = (foundFor c.name ap₂).isEmpty)
    (hmin : ∀ c ∈ cards,
      pyMinL (foundFor c.name ap₁) = pyMinL (foundFor c.name ap₂)) :
    analyze_without_filtering ap₁ cards = analyze_without_filtering ap₂ cards := by
  have hfilT : cards.filter (fun c => !(foundFor c.name ap₁).isEmpty) =
      cards.filter (fun c => !(foundFor c.name ap₂).isEmpty) :=
    List.filter_congr (fun x hx => by rw [hie x hx])
  have hfilE : cards.filter (fun c => (foundFor c.name ap₁).isEmpty) =
      cards.filter (fun c => (foundFor c.name ap₂).isEmpty) :=
    List.filter_congr (fun x hx => hie x hx)
  have hmem : ∀ c ∈ cards.filter (fun c => !(foundFor c.name ap₂).isEmpty),
      c ∈ cards := fun c hc => (List.mem_filter.1 hc).1
  have hbp : (cards.filter (fun c => !(foundFor c.name ap₁).isEmpty)).foldl
        (fun d c => dinsert c.name (mkBP c (pyMinL (foundFor c.name ap₁))) d) [] =
      (cards.filter (fun c => !(foundFor c.name ap₂).isEmpty)).foldl
        (fun d c => dinsert c.name (mkBP c (pyMinL (foundFor c.name ap₂))) d) [] := by
    rw [hfilT]
    exact foldl_congr' _ _ _ (fun c hc d => by rw [hmin c (hmem c hc)]) []
  have hbl : (cards.filter (fun c => !(foundFor c.name ap₁).isEmpty)).foldl
        (fun d c => dappend (pyMinL (foundFor c.name ap₁)).website
          (mkLine c.name c.quantity (pyMinL (foundFor c.name ap₁))) d) [] =
      (cards.filter (fun c => !(foundFor c.name ap₂).isEmpty)).foldl
        (fun d c => dappend (pyMinL (foundFor c.name ap₂)).website
          (mkLine c.name c.quantity (pyMinL (foundFor c.name ap₂))) d) [] := by
    rw [hfilT]
    exact foldl_congr' _ _ _ (fun c hc d => by rw [hmin c (hmem c hc)]) []
  rw [analyze_without_eq, analyze_without_eq, hbp, hbl, hfilE]

/-- The options/not-found stage depends on the observation list only through
each requested card's found-observation emptiness and sorted options. -/
theorem optionsAndNotFound_congr (ap₁ ap₂ : List CardPrice) (cards : List Card)
    (hie : ∀ c ∈ cards, (foundFor c.name ap₁).isEmpty = (foundFor c.name ap₂).isEmpty)
    (hsort : ∀ c ∈ cards,
      sortByPrice (foundFor c.name ap₁) = sortByPrice (foundFor c.name ap₂)) :
    optionsAndNotFound ap₁ cards = optionsAndNotFound ap₂ cards := by
  have hfilT : cards.filter (fun c => !(foundFor c.name ap₁).isEmpty) =
      cards.filter (fun c => !(foundFor c.name ap₂).isEmpty) :=
    List.filter_congr (fun x hx => by rw [hie x hx])
  have hfilE : cards.filter (fun c => (foundFor c.name ap₁).isEmpty) =
      cards.filter (fun c => (foundFor c.name ap₂).isEmpty) :=
    List.filter_congr (fun x hx => hie x hx)
  have hmem : ∀ c ∈ cards.filter (fun c => !(foundFor c.name ap₂).isEmpty),
      c ∈ cards := fun c hc => (List.mem_filter.1 hc).1
  have hopts : (cards.filter (fun c => !(foundFor c.name ap₁).isEmpty)).foldl
        (fun d c => dinsert c.name (c, sortByPrice (foundFor c.name ap₁)) d) [] =
      (cards.filter (fun c => !(foundFor c.name ap₂).isEmpty)).foldl
        (fun d c => dinsert c.name (c, sortByPrice (foundFor c.name ap₂)) d) [] := by
    rw [hfilT]
    exact foldl_congr' _ _ _ (fun c hc d => by rw [hsort c (hmem c hc)]) []
  rw [optionsAndNotFound_eq, optionsAndNotFound_eq, hopts, hfilE]

/-- The filtered pipeline depends on the observation list only through the
options/not-found stage. -/
theorem analyze_with_congr (cfg : VendorFilterConfig) (ap₁ ap₂ : List CardPrice)
    (cards : List Card)
    (honf : optionsAndNotFound ap₁ cards = optionsAndNotFound ap₂ cards) :
    analyze_with_filtering cfg ap₁ cards = analyze_with_filtering cfg ap₂ cards := by
  simp only [analyze_with_filtering]
  rw [honf]

/-- C2, as stated, fails on price ties: with item `A` offered at the same
price by `X` and `Y`, swapping the two observations (a permutation of the
same multiset) flips which vendor wins the tie in both modes, because the
stable sort and first-minimum selection leak the source query order. -/
theorem claim_C2_counterexample :
    (([⟨"A", "A", .fin 1, "X", true, 1⟩, ⟨"A", "A", .fin 1, "Y", true, 1⟩] :
        List CardPrice).Perm
      [⟨"A", "A", .fin 1, "Y", true, 1⟩, ⟨"A", "A", .fin 1, "X", true, 1⟩]) ∧
    analyze_without_filtering
        [⟨"A", "A", .fin 1, "X", true, 1⟩, ⟨"A", "A", .fin 1, "Y", true, 1⟩]
        [⟨1, "A", none, none⟩] ≠
      analyze_without_filtering
        [⟨"A", "A", .fin 1, "Y", true, 1⟩, ⟨"A", "A", .fin 1, "X", true, 1⟩]
        [⟨1, "A", none, none⟩] ∧
    analyze_with_filtering ⟨2, 5, true⟩
        [⟨"A", "A", .fin 1, "X", true, 1⟩, ⟨"A", "A", .fin 1, "Y", true, 1⟩]
        [⟨1, "A", none, none⟩] ≠
      analyze_with_filtering ⟨2, 5, true⟩
        [⟨"A", "A", .fin 1, "Y", true, 1⟩, ⟨"A", "A", .fin 1, "X", true, 1⟩]
        [⟨1, "A", none, none⟩] :=
  ⟨List.Perm.swap _ _ _, by decide, by decide⟩

/-- C2 (amended): two runs on the same requested item sequence and the same
multiset of observations (a permutation) produce identical results in both
modes, provided no two found observations of any requested item share a
price — with ties, the order of source queries leaks into the result. -/
theorem claim_C2_theorem (cfg : VendorFilterConfig) (ap₁ ap₂ : List CardPrice)
    (cards : List Card) (hp : ap₁.Perm ap₂)
    (hne : ∀ c ∈ cards, (foundFor c.name ap₁).Pairwise priceNe) :
    analyze_without_filtering ap₁ cards = analyze_without_filtering ap₂ cards ∧
    analyze_with_filtering cfg ap₁ cards = analyze_with_filtering cfg ap₂ cards := by
  have hff : ∀ c ∈ cards, (foundFor c.name ap₁).Perm (foundFor c.name ap₂) :=
    fun c _ => foundFor_perm hp c.name
  have hie : ∀ c ∈ cards,
      (foundFor c.name ap₁).isEmpty = (foundFor c.name ap₂).isEmpty :=
    fun c hc => perm_isEmpty_eq (hff c hc)
  have hmin : ∀ c ∈ cards,
      pyMinL (foundFor c.name ap₁) = pyMinL (foundFor c.name ap₂) :=
    fun c hc => pyMinL_eq_of_perm (hff c hc) (hne c hc)
  have hsort : ∀ c ∈ cards,
      sortByPrice (foundFor c.name ap₁) = sortByPrice (foundFor c.name ap₂) :=
    fun c hc => sortByPrice_eq_of_perm (hff c hc) (hne c hc)
  exact ⟨analyze_without_congr ap₁ ap₂ cards hie hmin,
    analyze_with_congr cfg ap₁ ap₂ cards
      (optionsAndNotFound_congr ap₁ ap₂ cards hie hsort)⟩

theorem claim_C2_witness :
    (([⟨"A", "A", .fin 1, "X", true, 1⟩, ⟨"A", "A", .fin 2, "Y", true, 1⟩] :
        List CardPrice).Perm
      [⟨"A", "A", .fin 2, "Y", true, 1⟩, ⟨"A", "A", .fin 1, "X", true, 1⟩]) ∧
    (∀ c ∈ ([⟨1, "A", none, none⟩] : List Card),
      (foundFor c.name
        [⟨"A", "A", .fin 1, "X", true, 1⟩,
         ⟨"A", "A", .fin 2, "Y", true, 1⟩]).Pairwise priceNe) ∧
    (analyze_without_filtering
        [⟨"A", "A", .fin 1, "X", true, 1⟩, ⟨"A", "A", .fin 2, "Y", true, 1⟩]
        [⟨1, "A", none, none⟩] =
      analyze_without_filtering
        [⟨"A", "A", .fin 2, "Y", true, 1⟩, ⟨"A", "A", .fin 1, "X", true, 1⟩]
        [⟨1, "A", none, none⟩] ∧
     analyze_with_filtering ⟨2, 5, true⟩
        [⟨"A", "A", .fin 1, "X", true, 1⟩, ⟨"A", "A", .fin 2, "Y", true, 1⟩]
        [⟨1, "A", none, none⟩] =
      analyze_with_filtering ⟨2, 5, true⟩
        [⟨"A", "A", .fin 2, "Y", true, 1⟩, ⟨"A", "A", .fin 1, "X", true, 1⟩]
        [⟨1, "A", none, none⟩]) :=
  ⟨List.Perm.swap _ _ _, by decide,
   claim_C2_theorem ⟨2, 5, true⟩
     [⟨"A", "A", .fin 1, "X", true, 1⟩, ⟨"A", "A", .fin 2, "Y", true, 1⟩]
     [⟨"A", "A", .fin 2, "Y", true, 1⟩, ⟨"A", "A", .fin 1, "X", true, 1⟩]
     [⟨1, "A", none, none⟩] (List.Perm.swap _ _ _) (by decide)⟩

end MtgScraper
